import Mathlib

/-!
Shallow embedding of the balance-transition engine of the `pallet-assets`
module (`src/frame/assets/src/lib.rs`): the data model (`AssetDetails`,
`AssetBalance`, `Approval`), the admissibility checks (`can_increase`,
`can_decrease`, `decreasable_balance`), the preparation functions
(`prep_debit`, `prep_credit`) and the composite operations (`do_mint`,
`increase_balance`, `do_burn`, `decrease_balance`, `do_transfer`,
`transfer_approved`).

Balances are modelled as natural numbers bounded by `Env.maxBal`
(`T::Balance::max_value()`), with `checked_add`/`checked_sub`/saturating
arithmetic made explicit.  The storage double-map `Account` is modelled as an
association list from holder ids to `AssetBalance` records; `ValueQuery`
reads return the `Default` record.  The external collaborators (the
`frame_system` reference counter and the `T::Freezer` hook) are modelled by
an environment of pure functions, and their side-effecting notifications
(`inc_sufficients`, `inc_consumers`, `dec_sufficients`, `dec_consumers`,
`Freezer::melted`, `Freezer::died`, `Currency::unreserve`) are recorded as an
emitted event list.
-/

namespace Assets

/-- Upper bound of the `u32` counters (`accounts`, `sufficients`) used by
`checked_add` on those fields. -/
def u32Max : Nat := 4294967295

/-- Environment of external collaborators and machine parameters: the
maximum value of the balance type, the `T::Freezer::frozen_balance` hook and
the `frame_system` provider count of each account. -/
structure Env where
  maxBal : Nat
  frozen_balance : Nat → Option Nat
  providers : Nat → Nat

/-- Arithmetic `checked_add` of the balance type: `none` on overflow past
`maxBal`. -/
def checked_add (env : Env) (x y : Nat) : Option Nat :=
  if x + y ≤ env.maxBal then some (x + y) else none

/-- Arithmetic `checked_sub` of the balance type: `none` on underflow. -/
def checked_sub (x y : Nat) : Option Nat :=
  if y ≤ x then some (x - y) else none

/-- Arithmetic `saturating_add` of the balance type. -/
def satAdd (env : Env) (x y : Nat) : Nat :=
  min (x + y) env.maxBal

/-- The per-asset record `AssetDetails` (fields not touched by the balance
engine — `owner`, `freezer`, `deposit`, `approvals` — are omitted). -/
structure AssetDetails where
  issuer : Nat
  admin : Nat
  supply : Nat
  min_balance : Nat
  is_sufficient : Bool
  accounts : Nat
  sufficients : Nat
  is_frozen : Bool
deriving DecidableEq

/-- The per-holder record `AssetBalance` (the opaque `extra` side-car payload
is omitted; the engine never touches it). -/
structure AssetBalance where
  balance : Nat
  is_frozen : Bool
  sufficient : Bool
deriving DecidableEq

/-- The `Default` value of `AssetBalance`, returned by `ValueQuery` reads of
a missing `Account` entry. -/
def defaultAB : AssetBalance := ⟨0, false, false⟩

/-- An `Approval` record: remaining approved amount and the reserved
deposit. -/
structure Approval where
  amount : Nat
  deposit : Nat
deriving DecidableEq

/-- The `RespectFrozen` enum. -/
inductive RespectFrozen where
  | respect
  | ignore
deriving DecidableEq

/-- The `DepositConsequence` enum of `frame_support::traits::tokens`. -/
inductive DepositConsequence where
  | belowMinimum
  | cannotCreate
  | unknownAsset
  | overflow
  | success
deriving DecidableEq

/-- The `WithdrawConsequence` enum of `frame_support::traits::tokens`. -/
inductive WithdrawConsequence where
  | noFunds
  | wouldDie
  | unknownAsset
  | underflow
  | overflow
  | frozen
  | reducedToZero (dust : Nat)
  | success
deriving DecidableEq

/-- Unified error type covering `Error::<T>` of the pallet and the
`TokenError`/`DispatchError` variants that the consequence types convert
into. -/
inductive DispatchError where
  | unknown
  | frozen
  | overflow
  | underflow
  | balanceLow
  | noPermission
  | noProvider
  | unapproved
  | belowMinimum
  | cannotCreate
  | unknownAsset
  | wouldDie
  | noFunds
deriving DecidableEq

/-- Modelled from the spec: `DepositConsequence::into_result` of
`frame_support` (not under `src/`), which maps `Success` to `Ok(())` and each
failure variant to the corresponding typed error (spec section 4.1/7). -/
def depositIntoResult : DepositConsequence → Except DispatchError Unit
  | .belowMinimum => .error .belowMinimum
  | .cannotCreate => .error .cannotCreate
  | .unknownAsset => .error .unknownAsset
  | .overflow => .error .overflow
  | .success => .ok ()

/-- Modelled from the spec: `WithdrawConsequence::into_result` of
`frame_support` (not under `src/`), which maps `Success` to `Ok(0)`,
`ReducedToZero(dust)` to `Ok(dust)` and each failure variant to the
corresponding typed error (spec sections 4.1, 4.2 and 7). -/
def withdrawIntoResult : WithdrawConsequence → Except DispatchError Nat
  | .noFunds => .error .noFunds
  | .wouldDie => .error .wouldDie
  | .unknownAsset => .error .unknownAsset
  | .underflow => .error .underflow
  | .overflow => .error .overflow
  | .frozen => .error .frozen
  | .reducedToZero dust => .ok dust
  | .success => .ok 0

/-- Side-effecting notifications to the external collaborators, recorded as
events: the two reference-counter classes of `frame_system`
(`inc_sufficients`/`inc_consumers` and their decrements), the `T::Freezer`
hook notifications and `Currency::unreserve`. -/
inductive Event where
  | incSufficient (who : Nat)
  | incConsumer (who : Nat)
  | decSufficient (who : Nat)
  | decConsumer (who : Nat)
  | died (who : Nat)
  | melted (who : Nat) (amount : Nat)
  | unreserved (who : Nat) (amount : Nat)
deriving DecidableEq

/-- Association-list lookup, modelling a storage-map `get` returning
`Option`. -/
def alistLookup {β : Type} : List (Nat × β) → Nat → Option β
  | [], _ => none
  | (k, v) :: t, w => if k = w then some v else alistLookup t w

/-- Association-list insert-or-replace, modelling a storage-map write. -/
def alistSet {β : Type} : List (Nat × β) → Nat → β → List (Nat × β)
  | [], w, v => [(w, v)]
  | (k, u) :: t, w, v => if k = w then (w, v) :: t else (k, u) :: alistSet t w v

/-- Association-list removal, modelling a storage-map `remove`. -/
def alistRemove {β : Type} : List (Nat × β) → Nat → List (Nat × β)
  | [], _ => []
  | (k, u) :: t, w => if k = w then t else (k, u) :: alistRemove t w

/-- Well-formedness of the association lists used as storage maps: keys are
pairwise distinct. -/
def nodupKeys {β : Type} : List (Nat × β) → Bool
  | [] => true
  | (k, _) :: t => (alistLookup t k).isNone && nodupKeys t

/-- The `Account` storage double-map restricted to one asset: an association
list from holder id to `AssetBalance`. -/
abbrev AccountMap : Type := List (Nat × AssetBalance)

/-- The `ValueQuery` read `Account::<T>::get(id, who)`. -/
def getAcc (m : AccountMap) (w : Nat) : AssetBalance :=
  (alistLookup m w).getD defaultAB

/-- Balance of a holder, `Pallet::<T>::balance`. -/
def getBal (m : AccountMap) (w : Nat) : Nat :=
  (getAcc m w).balance

/-- Sum of the balances of all persisted account records of the asset. -/
def sumBal (m : AccountMap) : Nat :=
  (m.map (fun p => p.2.balance)).sum

/-- Ledger state for a single asset class: the `Asset` registry entry and
the `Account` balances of that asset. -/
structure State where
  asset : Option AssetDetails
  accounts : AccountMap
deriving DecidableEq

/-- Decidable equality of `Except` results, for evaluating the engine on
concrete inputs. -/
instance {ε α : Type} [DecidableEq ε] [DecidableEq α] :
    DecidableEq (Except ε α) := fun x y =>
  match x, y with
  | .error e1, .error e2 =>
    if h : e1 = e2 then .isTrue (by rw [h])
    else .isFalse (fun hx => h (by injection hx))
  | .ok a1, .ok a2 =>
    if h : a1 = a2 then .isTrue (by rw [h])
    else .isFalse (fun hx => h (by injection hx))
  | .error _, .ok _ => .isFalse (fun hx => Except.noConfusion hx)
  | .ok _, .error _ => .isFalse (fun hx => Except.noConfusion hx)

/-- The function `Pallet::<T>::can_increase` (`can_deposit`). -/
def can_increase (env : Env) (st : State) (who : Nat) (amount : Nat) :
    DepositConsequence :=
  match st.asset with
  | none => .unknownAsset
  | some details =>
    if (checked_add env details.supply amount).isNone then .overflow
    else if (checked_add env (getAcc st.accounts who).balance amount).isNone then
      .overflow
    else if (getAcc st.accounts who).balance = 0 then
      if amount < details.min_balance then .belowMinimum
      else if !details.is_sufficient && env.providers who = 0 then .cannotCreate
      else if details.is_sufficient && details.sufficients + 1 > u32Max then .overflow
      else .success
    else .success

/-- The function `Pallet::<T>::can_decrease` (`can_withdraw`): the
consequence of a withdrawal together with the optional argument for a later
`Freezer::melted` notification. -/
def can_decrease (env : Env) (st : State) (who : Nat) (amount : Nat)
    (keep_alive : Bool) (respect_frozen : RespectFrozen) :
    WithdrawConsequence × Option Nat :=
  match st.asset with
  | none => (.unknownAsset, none)
  | some details =>
    if (checked_sub details.supply amount).isNone then (.underflow, none)
    else if details.is_frozen then (.frozen, none)
    else if (getAcc st.accounts who).is_frozen then (.frozen, none)
    else
      match checked_sub (getAcc st.accounts who).balance amount with
      | none => (.noFunds, none)
      | some rest =>
            match env.frozen_balance who with
            | some frozen =>
              match checked_add env frozen details.min_balance with
              | none => (.overflow, none)
              | some required_balance =>
                if rest < required_balance then
                  match respect_frozen with
                  | .respect => (.frozen, none)
                  | .ignore =>
                    if rest < details.min_balance then
                      if keep_alive then (.wouldDie, none)
                      else (.reducedToZero rest, some (rest - details.min_balance))
                    else (.success, some (rest - details.min_balance))
                else
                  if rest < details.min_balance then
                    if keep_alive then (.wouldDie, none)
                    else (.reducedToZero rest, none)
                  else (.success, none)
            | none =>
              if rest < details.min_balance then
                if keep_alive then (.wouldDie, none)
                else (.reducedToZero rest, none)
              else (.success, none)

/-- The function `Pallet::<T>::decreasable_balance`: the maximum amount that
`can_decrease` accepts with a Success/ReducedToZero consequence. -/
def decreasable_balance (env : Env) (st : State) (who : Nat)
    (keep_alive : Bool) (respect_frozen : RespectFrozen) :
    Except DispatchError Nat :=
  match st.asset with
  | none => .error .unknown
  | some details =>
    if details.is_frozen then .error .frozen
    else if (getAcc st.accounts who).is_frozen then .error .frozen
    else
      match keep_alive, respect_frozen, env.frozen_balance who with
      | _, .respect, some frozen =>
        match checked_add env frozen details.min_balance with
        | none => .error .overflow
        | some required =>
          .ok (min ((getAcc st.accounts who).balance - required) details.supply)
      | true, _, _ =>
        .ok (min ((getAcc st.accounts who).balance - details.min_balance)
              details.supply)
      | _, _, _ =>
        .ok (min (getAcc st.accounts who).balance details.supply)

/-- The function `Pallet::<T>::prep_debit`: cap the requested amount at the
decreasable balance, reject non-best-effort shortfalls with `BalanceLow`,
then confirm with `can_decrease` and fold any `ReducedToZero` dust into the
actual debit. -/
def prep_debit (env : Env) (st : State) (target : Nat) (amount : Nat)
    (keep_alive : Bool) (respect_frozen : RespectFrozen) (best_effort : Bool) :
    Except DispatchError (Nat × Option Nat) :=
  match decreasable_balance env st target keep_alive respect_frozen with
  | .error e => .error e
  | .ok cap =>
    if !(best_effort || amount ≤ min cap amount) then .error .balanceLow
    else
      match withdrawIntoResult
          (can_decrease env st target (min cap amount) keep_alive respect_frozen).1 with
      | .ok dust =>
        .ok (satAdd env (min cap amount) dust,
             (can_decrease env st target (min cap amount) keep_alive respect_frozen).2)
      | .error e => .error e

/-- The function `Pallet::<T>::prep_credit`: split the debited amount into
the credited part and the dust to burn, then validate with
`can_increase`. -/
def prep_credit (env : Env) (st : State) (dest : Nat) (amount : Nat)
    (debit : Nat) (burn_dust : Bool) :
    Except DispatchError (Nat × Option Nat) :=
  match burn_dust, checked_sub debit amount with
  | true, some dust =>
    match depositIntoResult (can_increase env st dest amount) with
    | .ok _ => .ok (amount, some dust)
    | .error e => .error e
  | true, none =>
    match depositIntoResult (can_increase env st dest debit) with
    | .ok _ => .ok (debit, none)
    | .error e => .error e
  | false, _ =>
    match depositIntoResult (can_increase env st dest debit) with
    | .ok _ => .ok (debit, none)
    | .error e => .error e

/-- The function `Pallet::<T>::new_account`: bump the `accounts` counter
(checked), then take a self-sufficient reference or a consumer reference
depending on the asset's sufficiency, returning which class was used. -/
def new_account (env : Env) (who : Nat) (d : AssetDetails) :
    Except DispatchError (Bool × AssetDetails × List Event) :=
  if d.accounts + 1 > u32Max then .error .overflow
  else
    if d.is_sufficient then
      .ok (true,
        { d with sufficients := d.sufficients + 1, accounts := d.accounts + 1 },
        [.incSufficient who])
    else
      if env.providers who = 0 then .error .noProvider
      else
        .ok (false, { d with accounts := d.accounts + 1 }, [.incConsumer who])

/-- The function `Pallet::<T>::dead_account`: release the reference of the
class recorded at creation, decrement the `accounts` counter and notify
`Freezer::died`. -/
def dead_account (who : Nat) (d : AssetDetails) (sufficient : Bool) :
    AssetDetails × List Event :=
  if sufficient then
    ({ d with sufficients := d.sufficients - 1, accounts := d.accounts - 1 },
     [.decSufficient who, .died who])
  else
    ({ d with accounts := d.accounts - 1 }, [.decConsumer who, .died who])

/-- The function `Pallet::<T>::increase_balance`: the common body of minting,
parameterised by the `check` closure that mutates the asset details. -/
def increase_balance (env : Env) (st : State) (beneficiary : Nat)
    (amount : Nat) (check : AssetDetails → Except DispatchError AssetDetails) :
    Except DispatchError (State × List Event) :=
  if amount = 0 then .ok (st, [])
  else
    match depositIntoResult (can_increase env st beneficiary amount) with
    | .error e => .error e
    | .ok _ =>
      match st.asset with
      | none => .error .unknown
      | some details =>
        match check details with
        | .error e => .error e
        | .ok details =>
          if satAdd env (getAcc st.accounts beneficiary).balance amount
              < details.min_balance then .error .belowMinimum
          else if (getAcc st.accounts beneficiary).balance = 0 then
            match new_account env beneficiary details with
            | .error e => .error e
            | .ok (suff, details2, evs) =>
              .ok (⟨some details2,
                    alistSet st.accounts beneficiary
                      { getAcc st.accounts beneficiary with
                        sufficient := suff,
                        balance := satAdd env
                          (getAcc st.accounts beneficiary).balance amount }⟩,
                   evs)
          else
            .ok (⟨some details,
                  alistSet st.accounts beneficiary
                    { getAcc st.accounts beneficiary with
                      balance := satAdd env
                        (getAcc st.accounts beneficiary).balance amount }⟩,
                 [])

/-- The function `Pallet::<T>::do_mint`: increase the beneficiary's balance
and saturatingly add the amount to the supply (checked in prep), optionally
checking issuer rights. -/
def do_mint (env : Env) (st : State) (beneficiary : Nat) (amount : Nat)
    (maybe_check_issuer : Option Nat) :
    Except DispatchError (State × List Event) :=
  increase_balance env st beneficiary amount (fun details =>
    match maybe_check_issuer with
    | some check_issuer =>
      if check_issuer = details.issuer then
        .ok { details with supply := satAdd env details.supply amount }
      else .error .noPermission
    | none =>
      .ok { details with supply := satAdd env details.supply amount })

/-- The function `Pallet::<T>::decrease_balance`: run `prep_debit`, apply
the `check` closure to the asset details, debit the target (deleting the
record and releasing references when the residual balance falls below the
minimum) and finally notify `Freezer::melted` if required. -/
def decrease_balance (env : Env) (st : State) (target : Nat) (amount : Nat)
    (keep_alive : Bool) (respect_frozen : RespectFrozen) (best_effort : Bool)
    (check : Nat → AssetDetails → Except DispatchError AssetDetails) :
    Except DispatchError (Nat × State × List Event) :=
  if amount = 0 then .ok (amount, st, [])
  else
    match prep_debit env st target amount keep_alive respect_frozen best_effort with
    | .error e => .error e
    | .ok (actual, melted) =>
      match st.asset with
      | none => .error .unknown
      | some details =>
        match check actual details with
        | .error e => .error e
        | .ok details =>
          if (getAcc st.accounts target).balance - actual < details.min_balance then
            .ok (actual,
                 ⟨some (dead_account target details
                         (getAcc st.accounts target).sufficient).1,
                  alistRemove st.accounts target⟩,
                 (dead_account target details
                   (getAcc st.accounts target).sufficient).2 ++
                   (match melted with
                    | some arg => [Event.melted target arg]
                    | none => []))
          else
            .ok (actual,
                 ⟨some details,
                  alistSet st.accounts target
                    { getAcc st.accounts target with
                      balance := (getAcc st.accounts target).balance - actual }⟩,
                 (match melted with
                  | some arg => [Event.melted target arg]
                  | none => []))

/-- The function `Pallet::<T>::do_burn`: decrease the target's balance on a
best-effort basis, saturatingly subtracting the actual amount from the
supply, optionally checking admin rights. -/
def do_burn (env : Env) (st : State) (target : Nat) (amount : Nat)
    (maybe_check_admin : Option Nat) (keep_alive : Bool)
    (respect_frozen : RespectFrozen) (best_effort : Bool) :
    Except DispatchError (Nat × State × List Event) :=
  decrease_balance env st target amount keep_alive respect_frozen best_effort
    (fun actual details =>
      match maybe_check_admin with
      | some check_admin =>
        if check_admin = details.admin then
          .ok { details with supply := details.supply - actual }
        else .error .noPermission
      | none =>
        .ok { details with supply := details.supply - actual })

/-- Melt-notification event list: `T::Freezer::melted(id, who, arg)` when
`prep_debit` returned a melt argument. -/
def meltEvs (who : Nat) : Option Nat → List Event
  | some arg => [Event.melted who arg]
  | none => []

/-- Final mutation block of `Pallet::<T>::do_transfer` (after the optional
destination-account creation): credit the destination, debit the source
(deleting its record and releasing its reference when the residual balance
falls below the minimum) and fire the melt notification.  `details` is the
asset record after dust burning and account creation, `suff` the
sufficiency flag of the destination record and `evs1` the events of the
destination-account creation. -/
def do_transfer_fin (env : Env) (st : State) (source dest : Nat)
    (debit : Nat) (melted : Option Nat) (credit : Nat)
    (suff : Bool) (details : AssetDetails) (evs1 : List Event) :
    Except DispatchError (Nat × State × List Event) :=
  if (getAcc st.accounts source).balance - debit < details.min_balance then
    .ok (credit,
         ⟨some (dead_account source details
                 (getAcc st.accounts source).sufficient).1,
          alistRemove
            (alistSet st.accounts dest
              { getAcc st.accounts dest with
                sufficient := suff,
                balance := satAdd env (getAcc st.accounts dest).balance credit })
            source⟩,
         evs1 ++ (dead_account source details
                   (getAcc st.accounts source).sufficient).2 ++
           meltEvs source melted)
  else
    .ok (credit,
         ⟨some details,
          alistSet
            (alistSet st.accounts dest
              { getAcc st.accounts dest with
                sufficient := suff,
                balance := satAdd env (getAcc st.accounts dest).balance credit })
            source
            { getAcc st.accounts source with
              balance := (getAcc st.accounts source).balance - debit }⟩,
         evs1 ++ meltEvs source melted)

/-- Tail of `Pallet::<T>::do_transfer` after the admin-rights check: the
source-equals-destination skip, the dust burn from the supply and the
optional creation of the destination account. -/
def do_transfer_go (env : Env) (st : State) (source dest : Nat)
    (details : AssetDetails) (debit : Nat) (melted : Option Nat)
    (credit : Nat) (maybe_burn : Option Nat) :
    Except DispatchError (Nat × State × List Event) :=
  if source = dest then
    .ok (credit, st, meltEvs source melted)
  else
    if (getAcc st.accounts dest).balance = 0 then
      match new_account env dest
          (match maybe_burn with
           | some burn => { details with supply := details.supply - burn }
           | none => details) with
      | .error e => .error e
      | .ok (suff, details2, evs1) =>
        do_transfer_fin env st source dest debit melted credit suff details2 evs1
    else
      do_transfer_fin env st source dest debit melted credit
        (getAcc st.accounts dest).sufficient
        (match maybe_burn with
         | some burn => { details with supply := details.supply - burn }
         | none => details)
        []

/-- The function `Pallet::<T>::do_transfer`: zero amount is a successful
no-op; otherwise prepare the debit and the credit, skip all mutation when
source equals destination, and otherwise burn dust from the supply, credit
the destination (creating its record if needed), debit the source (deleting
its record when dead) and fire the melt notification. -/
def do_transfer (env : Env) (st : State) (source dest : Nat) (amount : Nat)
    (maybe_need_admin : Option Nat) (keep_alive : Bool)
    (respect_frozen : RespectFrozen) (best_effort burn_dust : Bool) :
    Except DispatchError (Nat × State × List Event) :=
  if amount = 0 then .ok (amount, st, [])
  else
    match prep_debit env st source amount keep_alive respect_frozen best_effort with
    | .error e => .error e
    | .ok (debit, melted) =>
      match prep_credit env st dest amount debit burn_dust with
      | .error e => .error e
      | .ok (credit, maybe_burn) =>
        match st.asset with
        | none => .error .unknown
        | some details =>
          match maybe_need_admin with
          | some need_admin =>
            if need_admin = details.admin then
              do_transfer_go env st source dest details debit melted credit
                maybe_burn
            else .error .noPermission
          | none =>
            do_transfer_go env st source dest details debit melted credit
              maybe_burn

/-- The `Approvals` storage double-map restricted to one asset, keyed by
(owner, delegate). -/
abbrev ApprovalMap : Type := List ((Nat × Nat) × Approval)

/-- Lookup in the approvals map (pair keys). -/
def apprLookup : ApprovalMap → Nat × Nat → Option Approval
  | [], _ => none
  | (k, v) :: t, w => if k = w then some v else apprLookup t w

/-- Insert-or-replace in the approvals map (pair keys). -/
def apprSet : ApprovalMap → Nat × Nat → Approval → ApprovalMap
  | [], w, v => [(w, v)]
  | (k, u) :: t, w, v => if k = w then (w, v) :: t else (k, u) :: apprSet t w v

/-- Removal from the approvals map (pair keys). -/
def apprRemove : ApprovalMap → Nat × Nat → ApprovalMap
  | [], _ => []
  | (k, u) :: t, w => if k = w then t else (k, u) :: apprRemove t w

/-- The dispatchable `transfer_approved` (after origin resolution): take the
approval for (owner, delegate), fail `Unapproved` when it is missing or when
the requested amount exceeds the remaining allowance, perform the inner
transfer from owner to destination, and only then write back the reduced
allowance (removing the record and unreserving the deposit when it reaches
zero).  An error from the inner transfer aborts the surrounding
`try_mutate_exists`, leaving the approval untouched. -/
def transfer_approved (env : Env) (st : State) (apprs : ApprovalMap)
    (owner delegate destination : Nat) (amount : Nat) :
    Except DispatchError (State × ApprovalMap × List Event) :=
  match apprLookup apprs (owner, delegate) with
  | none => .error .unapproved
  | some approved =>
    match checked_sub approved.amount amount with
    | none => .error .unapproved
    | some remaining =>
      match do_transfer env st owner destination amount none false .respect
              false false with
      | .error e => .error e
      | .ok (_, st2, evs) =>
        if remaining = 0 then
          .ok (st2, apprRemove apprs (owner, delegate),
               evs ++ [.unreserved owner approved.deposit])
        else
          .ok (st2, apprSet apprs (owner, delegate)
                 { approved with amount := remaining },
               evs)

/-- Dispatch-level wrapper for `transfer_approved` with the all-or-nothing
commit of the transaction substrate: on error the ledger state and the
approvals map are unchanged. -/
def run_transfer_approved (env : Env) (st : State) (apprs : ApprovalMap)
    (owner delegate destination : Nat) (amount : Nat) : State × ApprovalMap :=
  match transfer_approved env st apprs owner delegate destination amount with
  | .ok (st2, apprs2, _) => (st2, apprs2)
  | .error _ => (st, apprs)

/-- One balance-engine operation, as dispatched by the claims: mint, burn or
transfer (the privileged issuer/admin checks are passed as `None`). -/
inductive Op where
  | mint (beneficiary amount : Nat)
  | burn (target amount : Nat) (keep_alive : Bool) (rf : RespectFrozen)
      (best_effort : Bool)
  | transfer (source dest amount : Nat) (keep_alive : Bool)
      (rf : RespectFrozen) (best_effort burn_dust : Bool)

/-- Apply one operation to the state, returning the reported actual amount,
the new state and the emitted notifications. -/
def applyOp (env : Env) (st : State) : Op →
    Except DispatchError (Nat × State × List Event)
  | .mint b a =>
    match do_mint env st b a none with
    | .ok (st2, evs) => .ok (a, st2, evs)
    | .error e => .error e
  | .burn t a ka rf be => do_burn env st t a none ka rf be
  | .transfer s d a ka rf be bd => do_transfer env st s d a none ka rf be bd

/-- Dispatch-level wrapper with the all-or-nothing commit of the transaction
substrate: a failed operation leaves the state unchanged. -/
def applyOpD (env : Env) (st : State) (op : Op) : State :=
  match applyOp env st op with
  | .ok (_, st2, _) => st2
  | .error _ => st

/-- Whether a withdraw consequence lets the withdrawal proceed (the `Ok`
cases of `WithdrawConsequence::into_result`). -/
def proceeds : WithdrawConsequence → Bool
  | .success => true
  | .reducedToZero _ => true
  | _ => false

/-- Invariant I1 of the spec for the modelled asset: the total supply equals
the sum of the balances of all persisted account records. -/
abbrev Conserved (st : State) : Prop :=
  match st.asset with
  | none => True
  | some d => d.supply = sumBal st.accounts

/-- Invariant I2 of the spec for the modelled asset: no persisted record has
a balance strictly between zero and the minimum balance. -/
abbrev NoDust (st : State) : Prop :=
  match st.asset with
  | none => True
  | some d => ∀ p ∈ st.accounts, p.2.balance = 0 ∨ d.min_balance ≤ p.2.balance

/-! Basic lemmas about the checked arithmetic and the association-list
storage model. -/

theorem checked_add_eq_none {env : Env} {x y : Nat} :
    checked_add env x y = none ↔ env.maxBal < x + y := by
  unfold checked_add
  split <;> simp <;> omega

theorem checked_add_eq_some {env : Env} {x y z : Nat} :
    checked_add env x y = some z ↔ x + y ≤ env.maxBal ∧ z = x + y := by
  unfold checked_add
  split <;> simp <;> omega

theorem checked_sub_eq_none {x y : Nat} :
    checked_sub x y = none ↔ x < y := by
  unfold checked_sub
  split <;> simp <;> omega

theorem checked_sub_eq_some {x y z : Nat} :
    checked_sub x y = some z ↔ y ≤ x ∧ z = x - y := by
  unfold checked_sub
  split <;> simp <;> omega

theorem satAdd_eq {env : Env} {x y : Nat} (h : x + y ≤ env.maxBal) :
    satAdd env x y = x + y := by
  unfold satAdd
  omega

theorem alistLookup_set_self {β : Type} (m : List (Nat × β)) (w : Nat) (v : β) :
    alistLookup (alistSet m w v) w = some v := by
  induction m with
  | nil => simp [alistSet, alistLookup]
  | cons p t ih =>
    obtain ⟨k, u⟩ := p
    by_cases hk : k = w
    · subst hk
      simp [alistSet, alistLookup]
    · simp [alistSet, alistLookup, hk, ih]

theorem alistLookup_set_ne {β : Type} (m : List (Nat × β)) {w w2 : Nat} (v : β)
    (h : w ≠ w2) : alistLookup (alistSet m w v) w2 = alistLookup m w2 := by
  induction m with
  | nil => simp [alistSet, alistLookup, h]
  | cons p t ih =>
    obtain ⟨k, u⟩ := p
    by_cases hk : k = w
    · subst hk
      simp [alistSet, alistLookup, h]
    · simp [alistSet, alistLookup, hk, ih]

theorem alistLookup_remove_ne {β : Type} (m : List (Nat × β)) {w w2 : Nat}
    (h : w ≠ w2) : alistLookup (alistRemove m w) w2 = alistLookup m w2 := by
  induction m with
  | nil => simp [alistRemove]
  | cons p t ih =>
    obtain ⟨k, u⟩ := p
    by_cases hk : k = w
    · subst hk
      simp [alistRemove, alistLookup, h]
    · simp [alistRemove, alistLookup, hk, ih]

theorem alistLookup_remove_self {β : Type} (m : List (Nat × β)) (w : Nat)
    (h : nodupKeys m = true) : alistLookup (alistRemove m w) w = none := by
  induction m with
  | nil => simp [alistRemove, alistLookup]
  | cons p t ih =>
    obtain ⟨k, u⟩ := p
    simp only [nodupKeys, Bool.and_eq_true, Option.isNone_iff_eq_none] at h
    by_cases hk : k = w
    · subst hk
      simpa [alistRemove] using h.1
    · simp [alistRemove, hk, alistLookup, ih h.2]

theorem nodupKeys_set {β : Type} (m : List (Nat × β)) (w : Nat) (v : β)
    (h : nodupKeys m = true) : nodupKeys (alistSet m w v) = true := by
  induction m with
  | nil => simp [alistSet, nodupKeys, alistLookup]
  | cons p t ih =>
    obtain ⟨k, u⟩ := p
    simp only [nodupKeys, Bool.and_eq_true, Option.isNone_iff_eq_none] at h
    by_cases hk : k = w
    · subst hk
      simp [alistSet, nodupKeys, h.1, h.2]
    · have hne : w ≠ k := fun hx => hk hx.symm
      simp [alistSet, hk, nodupKeys, alistLookup_set_ne t v hne, h.1, ih h.2]

theorem nodupKeys_remove {β : Type} (m : List (Nat × β)) (w : Nat)
    (h : nodupKeys m = true) : nodupKeys (alistRemove m w) = true := by
  induction m with
  | nil => simp [alistRemove, nodupKeys]
  | cons p t ih =>
    obtain ⟨k, u⟩ := p
    simp only [nodupKeys, Bool.and_eq_true, Option.isNone_iff_eq_none] at h
    by_cases hk : k = w
    · subst hk
      simpa [alistRemove] using h.2
    · by_cases hkw : w = k
      · exact absurd hkw.symm hk
      · simp [alistRemove, hk, nodupKeys, alistLookup_remove_ne t hkw, h.1,
          ih h.2]

theorem getBal_set_self (m : AccountMap) (w : Nat) (v : AssetBalance) :
    getBal (alistSet m w v) w = v.balance := by
  simp [getBal, getAcc, alistLookup_set_self]

theorem getBal_set_ne (m : AccountMap) {w w2 : Nat} (v : AssetBalance)
    (h : w ≠ w2) : getBal (alistSet m w v) w2 = getBal m w2 := by
  simp [getBal, getAcc, alistLookup_set_ne m v h]

theorem sumBal_set (m : AccountMap) (w : Nat) (v : AssetBalance) :
    sumBal (alistSet m w v) + getBal m w = sumBal m + v.balance := by
  induction m with
  | nil => simp [sumBal, alistSet, getBal, getAcc, alistLookup, defaultAB]
  | cons p t ih =>
    obtain ⟨k, u⟩ := p
    by_cases hk : k = w
    · subst hk
      simp [sumBal, alistSet, getBal, getAcc, alistLookup]
      omega
    · simp only [sumBal, alistSet, getBal, getAcc, alistLookup, hk,
        if_false, List.map_cons, List.sum_cons, if_neg hk] at ih ⊢
      omega

theorem sumBal_remove (m : AccountMap) (w : Nat) :
    sumBal (alistRemove m w) + getBal m w = sumBal m := by
  induction m with
  | nil => simp [sumBal, alistRemove, getBal, getAcc, alistLookup, defaultAB]
  | cons p t ih =>
    obtain ⟨k, u⟩ := p
    by_cases hk : k = w
    · subst hk
      simp [sumBal, alistRemove, getBal, getAcc, alistLookup]
      omega
    · simp only [sumBal, alistRemove, getBal, getAcc, alistLookup, hk,
        if_false, List.map_cons, List.sum_cons, if_neg hk] at ih ⊢
      omega

theorem getBal_le_sumBal (m : AccountMap) (w : Nat) :
    getBal m w ≤ sumBal m := by
  induction m with
  | nil => simp [sumBal, getBal, getAcc, alistLookup, defaultAB]
  | cons p t ih =>
    obtain ⟨k, u⟩ := p
    by_cases hk : k = w
    · subst hk
      have hb : getBal ((k, u) :: t) k = u.balance := by
        simp [getBal, getAcc, alistLookup]
      rw [hb]
      simp only [sumBal, List.map_cons, List.sum_cons]
      omega
    · simp only [sumBal, getBal, getAcc, alistLookup, hk, if_false,
        List.map_cons, List.sum_cons, if_neg hk] at ih ⊢
      omega

theorem mem_alistSet {β : Type} (m : List (Nat × β)) (w : Nat) (v : β)
    (p : Nat × β) : p ∈ alistSet m w v → (p = (w, v) ∨ p ∈ m) := by
  induction m with
  | nil =>
    intro h
    simpa [alistSet] using h
  | cons q t ih =>
    obtain ⟨k, u⟩ := q
    intro h
    by_cases hk : k = w
    · subst hk
      simp only [alistSet, if_pos rfl] at h
      rcases List.mem_cons.mp h with h1 | h1
      · exact Or.inl h1
      · exact Or.inr (List.mem_cons_of_mem _ h1)
    · simp only [alistSet, if_neg hk] at h
      rcases List.mem_cons.mp h with h1 | h1
      · exact Or.inr (by simp [h1])
      · rcases ih h1 with h2 | h2
        · exact Or.inl h2
        · exact Or.inr (List.mem_cons_of_mem _ h2)

theorem mem_alistRemove {β : Type} (m : List (Nat × β)) (w : Nat)
    (p : Nat × β) : p ∈ alistRemove m w → p ∈ m := by
  induction m with
  | nil =>
    intro h
    simp [alistRemove] at h
  | cons q t ih =>
    obtain ⟨k, u⟩ := q
    intro h
    by_cases hk : k = w
    · subst hk
      simp only [alistRemove, if_pos rfl] at h
      exact List.mem_cons_of_mem _ h
    · simp only [alistRemove, if_neg hk] at h
      rcases List.mem_cons.mp h with h1 | h1
      · simp [h1]
      · exact List.mem_cons_of_mem _ (ih h1)

/-! Anatomy lemmas: each characterises the successful runs of one engine
function, exposing the checks that passed and the state produced. -/

theorem alistLookup_mem {β : Type} {m : List (Nat × β)} {w : Nat} {v : β}
    (h : alistLookup m w = some v) : (w, v) ∈ m := by
  induction m with
  | nil => simp [alistLookup] at h
  | cons q t ih =>
    obtain ⟨k, u⟩ := q
    by_cases hk : k = w
    · subst hk
      have h2 : u = v := by
        simpa [alistLookup] using h
      subst h2
      exact List.mem_cons_self _ _
    · simp only [alistLookup, if_neg hk] at h
      exact List.mem_cons_of_mem _ (ih h)

theorem getBal_def (m : AccountMap) (w : Nat) :
    (getAcc m w).balance = getBal m w := rfl

theorem decreasable_balance_ok {env : Env} {st : State} {who : Nat}
    {ka : Bool} {rf : RespectFrozen} {c : Nat}
    (h : decreasable_balance env st who ka rf = .ok c) :
    ∃ d, st.asset = some d ∧ d.is_frozen = false ∧
      (getAcc st.accounts who).is_frozen = false ∧
      c ≤ d.supply ∧ c ≤ getBal st.accounts who ∧
      ((∃ f, rf = .respect ∧ env.frozen_balance who = some f ∧
          f + d.min_balance ≤ env.maxBal ∧
          c = min (getBal st.accounts who - (f + d.min_balance)) d.supply) ∨
       (ka = true ∧ (rf = .ignore ∨ env.frozen_balance who = none) ∧
          c = min (getBal st.accounts who - d.min_balance) d.supply) ∨
       (ka = false ∧ (rf = .ignore ∨ env.frozen_balance who = none) ∧
          c = min (getBal st.accounts who) d.supply)) := by
  unfold decreasable_balance at h
  cases hd : st.asset with
  | none =>
    rw [hd] at h
    exact absurd h (by simp)
  | some d =>
    rw [hd] at h
    dsimp only at h
    refine ⟨d, rfl, ?_⟩
    by_cases hdf : d.is_frozen = true
    · rw [if_pos hdf] at h
      exact absurd h (by simp)
    · rw [if_neg hdf] at h
      by_cases haf : (getAcc st.accounts who).is_frozen = true
      · rw [if_pos haf] at h
        exact absurd h (by simp)
      · rw [if_neg haf] at h
        refine ⟨by simpa using hdf, by simpa using haf, ?_⟩
        cases ka <;> cases rf <;> rcases hfb : env.frozen_balance who with _ | f <;>
          rw [hfb] at h <;> dsimp only at h
        · -- ka = false, rf = respect, hook = none: third arm
          simp only [Except.ok.injEq, getBal_def] at h
          exact ⟨by omega, by omega, Or.inr (Or.inr ⟨rfl, Or.inr rfl, by omega⟩)⟩
        · -- ka = false, rf = respect, hook = some f: first arm
          cases hca : checked_add env f d.min_balance with
          | none =>
            rw [hca] at h
            exact absurd h (by simp)
          | some req =>
            rw [hca] at h
            rw [checked_add_eq_some] at hca
            simp only [Except.ok.injEq, getBal_def] at h
            exact ⟨by omega, by omega, Or.inl ⟨f, rfl, rfl, by omega, by omega⟩⟩
        · -- ka = false, rf = ignore, hook = none: third arm
          simp only [Except.ok.injEq, getBal_def] at h
          exact ⟨by omega, by omega, Or.inr (Or.inr ⟨rfl, Or.inl rfl, by omega⟩)⟩
        · -- ka = false, rf = ignore, hook = some f: third arm
          simp only [Except.ok.injEq, getBal_def] at h
          exact ⟨by omega, by omega, Or.inr (Or.inr ⟨rfl, Or.inl rfl, by omega⟩)⟩
        · -- ka = true, rf = respect, hook = none: second arm
          simp only [Except.ok.injEq, getBal_def] at h
          exact ⟨by omega, by omega, Or.inr (Or.inl ⟨rfl, Or.inr rfl, by omega⟩)⟩
        · -- ka = true, rf = respect, hook = some f: first arm
          cases hca : checked_add env f d.min_balance with
          | none =>
            rw [hca] at h
            exact absurd h (by simp)
          | some req =>
            rw [hca] at h
            rw [checked_add_eq_some] at hca
            simp only [Except.ok.injEq, getBal_def] at h
            exact ⟨by omega, by omega, Or.inl ⟨f, rfl, rfl, by omega, by omega⟩⟩
        · -- ka = true, rf = ignore, hook = none: second arm
          simp only [Except.ok.injEq, getBal_def] at h
          exact ⟨by omega, by omega, Or.inr (Or.inl ⟨rfl, Or.inl rfl, by omega⟩)⟩
        · -- ka = true, rf = ignore, hook = some f: second arm
          simp only [Except.ok.injEq, getBal_def] at h
          exact ⟨by omega, by omega, Or.inr (Or.inl ⟨rfl, Or.inl rfl, by omega⟩)⟩

theorem checked_sub_isNone {x y : Nat} :
    (checked_sub x y).isNone = true ↔ x < y := by
  unfold checked_sub
  split <;> simp <;> omega

theorem checked_add_isNone {env : Env} {x y : Nat} :
    (checked_add env x y).isNone = true ↔ env.maxBal < x + y := by
  unfold checked_add
  split <;> simp <;> omega

theorem depositIntoResult_ok {dc : DepositConsequence} {u : Unit}
    (h : depositIntoResult dc = .ok u) : dc = .success := by
  cases dc <;> simp [depositIntoResult] at h ⊢

theorem can_decrease_ok_cases {env : Env} {st : State} {who amt : Nat}
    {ka : Bool} {rf : RespectFrozen} {d : AssetDetails} {dust : Nat}
    (hd : st.asset = some d)
    (hw : withdrawIntoResult (can_decrease env st who amt ka rf).1 = .ok dust) :
    amt ≤ getBal st.accounts who ∧ amt ≤ d.supply ∧
    ((dust = 0 ∧ d.min_balance ≤ getBal st.accounts who - amt) ∨
     (dust = getBal st.accounts who - amt ∧
      getBal st.accounts who - amt < d.min_balance)) := by
  unfold can_decrease at hw
  rw [hd] at hw
  dsimp only at hw
  by_cases hsu : (checked_sub d.supply amt).isNone = true
  · rw [if_pos hsu] at hw
    simp [withdrawIntoResult] at hw
  · rw [if_neg hsu] at hw
    rw [checked_sub_isNone] at hsu
    by_cases hdf : d.is_frozen = true
    · rw [if_pos hdf] at hw
      simp [withdrawIntoResult] at hw
    · rw [if_neg hdf] at hw
      by_cases haf : (getAcc st.accounts who).is_frozen = true
      · rw [if_pos haf] at hw
        simp [withdrawIntoResult] at hw
      · rw [if_neg haf] at hw
        cases hrest : checked_sub (getAcc st.accounts who).balance amt with
        | none =>
          rw [hrest] at hw
          simp [withdrawIntoResult] at hw
        | some rest =>
          rw [hrest] at hw
          dsimp only at hw
          rw [checked_sub_eq_some] at hrest
          rw [getBal_def] at hrest
          cases hfb : env.frozen_balance who with
          | none =>
            rw [hfb] at hw
            dsimp only at hw
            by_cases hrm : rest < d.min_balance
            · rw [if_pos hrm] at hw
              cases ka with
              | true => simp [withdrawIntoResult] at hw
              | false =>
                simp only [if_neg Bool.false_ne_true] at hw
                simp only [Bool.false_eq_true, if_false,
                  withdrawIntoResult, Except.ok.injEq] at hw
                exact ⟨by omega, by omega, Or.inr ⟨by omega, by omega⟩⟩
            · rw [if_neg hrm] at hw
              simp only [withdrawIntoResult, Except.ok.injEq] at hw
              exact ⟨by omega, by omega, Or.inl ⟨by omega, by omega⟩⟩
          | some f =>
            rw [hfb] at hw
            dsimp only at hw
            cases hca : checked_add env f d.min_balance with
            | none =>
              rw [hca] at hw
              simp [withdrawIntoResult] at hw
            | some req =>
              rw [hca] at hw
              dsimp only at hw
              by_cases hrq : rest < req
              · rw [if_pos hrq] at hw
                cases rf with
                | respect => simp [withdrawIntoResult] at hw
                | ignore =>
                  dsimp only at hw
                  by_cases hrm : rest < d.min_balance
                  · rw [if_pos hrm] at hw
                    cases ka with
                    | true => simp [withdrawIntoResult] at hw
                    | false =>
                      simp only [Bool.false_eq_true, if_false,
                        withdrawIntoResult, Except.ok.injEq] at hw
                      exact ⟨by omega, by omega, Or.inr ⟨by omega, by omega⟩⟩
                  · rw [if_neg hrm] at hw
                    simp only [withdrawIntoResult, Except.ok.injEq] at hw
                    exact ⟨by omega, by omega, Or.inl ⟨by omega, by omega⟩⟩
              · rw [if_neg hrq] at hw
                by_cases hrm : rest < d.min_balance
                · rw [if_pos hrm] at hw
                  cases ka with
                  | true => simp [withdrawIntoResult] at hw
                  | false =>
                    simp only [Bool.false_eq_true, if_false,
                      withdrawIntoResult, Except.ok.injEq] at hw
                    exact ⟨by omega, by omega, Or.inr ⟨by omega, by omega⟩⟩
                · rw [if_neg hrm] at hw
                  simp only [withdrawIntoResult, Except.ok.injEq] at hw
                  exact ⟨by omega, by omega, Or.inl ⟨by omega, by omega⟩⟩

theorem prep_debit_ok {env : Env} {st : State} {target amount : Nat}
    {ka : Bool} {rf : RespectFrozen} {be : Bool} {actual : Nat}
    {melted : Option Nat} {d : AssetDetails}
    (hd : st.asset = some d)
    (hbmax : getBal st.accounts target ≤ env.maxBal)
    (h : prep_debit env st target amount ka rf be = .ok (actual, melted)) :
    actual ≤ getBal st.accounts target ∧
    (getBal st.accounts target - actual < d.min_balance →
      actual = getBal st.accounts target) := by
  unfold prep_debit at h
  cases hdb : decreasable_balance env st target ka rf with
  | error e =>
    rw [hdb] at h
    exact absurd h (by simp)
  | ok cap =>
    rw [hdb] at h
    dsimp only at h
    obtain ⟨d2, hd2, _, _, _, hcb, _⟩ := decreasable_balance_ok hdb
    rw [hd] at hd2
    cases hd2
    split at h
    · exact absurd h (by simp)
    · cases hw : withdrawIntoResult
          (can_decrease env st target (min cap amount) ka rf).1 with
      | error e =>
        rw [hw] at h
        exact absurd h (by simp)
      | ok dust =>
        rw [hw] at h
        simp only [Except.ok.injEq, Prod.mk.injEq] at h
        obtain ⟨hle, hsup, hcases⟩ := can_decrease_ok_cases hd hw
        obtain ⟨ha, hm⟩ := h
        subst ha
        rcases hcases with ⟨h0, hge⟩ | ⟨hdu, hlt⟩
        · subst h0
          simp only [satAdd]
          constructor
          · omega
          · intro hx
            omega
        · subst hdu
          simp only [satAdd]
          constructor
          · omega
          · intro hx
            omega

theorem can_increase_success {env : Env} {st : State} {who amount : Nat}
    {d : AssetDetails}
    (hd : st.asset = some d)
    (h : can_increase env st who amount = .success) :
    d.supply + amount ≤ env.maxBal ∧
    getBal st.accounts who + amount ≤ env.maxBal ∧
    (getBal st.accounts who = 0 → d.min_balance ≤ amount) ∧
    (getBal st.accounts who = 0 → d.is_sufficient = false →
      env.providers who ≠ 0) := by
  unfold can_increase at h
  rw [hd] at h
  dsimp only at h
  by_cases h1 : (checked_add env d.supply amount).isNone = true
  · rw [if_pos h1] at h
    exact absurd h (by simp)
  · rw [if_neg h1] at h
    rw [checked_add_isNone] at h1
    by_cases h2 : (checked_add env (getAcc st.accounts who).balance amount).isNone = true
    · rw [if_pos h2] at h
      exact absurd h (by simp)
    · rw [if_neg h2] at h
      rw [checked_add_isNone] at h2
      rw [getBal_def] at h2
      have hz2 : getBal st.accounts who = 0 →
          ¬ amount < d.min_balance ∧
          (d.is_sufficient = false → env.providers who ≠ 0) := by
        intro hz
        rw [getBal_def] at h
        rw [hz] at h
        simp only [if_pos rfl] at h
        by_cases h3 : amount < d.min_balance
        · rw [if_pos h3] at h
          exact absurd h (by simp)
        · refine ⟨h3, ?_⟩
          rw [if_neg h3] at h
          intro hns hp0
          rw [hns] at h
          simp [hp0] at h
      exact ⟨by omega, by omega,
        fun hz => by have := (hz2 hz).1; omega,
        fun hz => (hz2 hz).2⟩

theorem prep_credit_ok {env : Env} {st : State} {dest amount debit : Nat}
    {bd : Bool} {credit : Nat} {maybe_burn : Option Nat}
    (h : prep_credit env st dest amount debit bd = .ok (credit, maybe_burn)) :
    can_increase env st dest credit = .success ∧
    ((maybe_burn = none ∧ credit = debit) ∨
     (∃ burn, maybe_burn = some burn ∧ credit = amount ∧ amount + burn = debit)) := by
  unfold prep_credit at h
  cases bd with
  | false =>
    dsimp only at h
    cases hci : depositIntoResult (can_increase env st dest debit) with
    | error e =>
      rw [hci] at h
      exact absurd h (by simp)
    | ok u =>
      rw [hci] at h
      simp only [Except.ok.injEq, Prod.mk.injEq] at h
      obtain ⟨hc, hb⟩ := h
      subst hc
      exact ⟨depositIntoResult_ok hci, Or.inl ⟨hb.symm, rfl⟩⟩
  | true =>
    cases hcs : checked_sub debit amount with
    | none =>
      rw [hcs] at h
      dsimp only at h
      cases hci : depositIntoResult (can_increase env st dest debit) with
      | error e =>
        rw [hci] at h
        exact absurd h (by simp)
      | ok u =>
        rw [hci] at h
        simp only [Except.ok.injEq, Prod.mk.injEq] at h
        obtain ⟨hc, hb⟩ := h
        subst hc
        exact ⟨depositIntoResult_ok hci, Or.inl ⟨hb.symm, rfl⟩⟩
    | some dust =>
      rw [hcs] at h
      dsimp only at h
      rw [checked_sub_eq_some] at hcs
      cases hci : depositIntoResult (can_increase env st dest amount) with
      | error e =>
        rw [hci] at h
        exact absurd h (by simp)
      | ok u =>
        rw [hci] at h
        simp only [Except.ok.injEq, Prod.mk.injEq] at h
        obtain ⟨hc, hb⟩ := h
        subst hc
        exact ⟨depositIntoResult_ok hci,
          Or.inr ⟨dust, hb.symm, rfl, by omega⟩⟩

theorem increase_balance_ok {env : Env} {st : State} {beneficiary amount : Nat}
    {check : AssetDetails → Except DispatchError AssetDetails}
    {st2 : State} {evs : List Event}
    (h : increase_balance env st beneficiary amount check = .ok (st2, evs)) :
    (amount = 0 ∧ st2 = st ∧ evs = []) ∨
    (0 < amount ∧ ∃ d d2,
      st.asset = some d ∧
      can_increase env st beneficiary amount = .success ∧
      check d = .ok d2 ∧
      d2.min_balance ≤ satAdd env (getBal st.accounts beneficiary) amount ∧
      ∃ suff d3 evs1,
        ((getBal st.accounts beneficiary = 0 ∧
          new_account env beneficiary d2 = .ok (suff, d3, evs1)) ∨
         (getBal st.accounts beneficiary ≠ 0 ∧
          suff = (getAcc st.accounts beneficiary).sufficient ∧
          d3 = d2 ∧ evs1 = [])) ∧
        st2 = ⟨some d3, alistSet st.accounts beneficiary
          { getAcc st.accounts beneficiary with
            sufficient := suff,
            balance := satAdd env (getBal st.accounts beneficiary) amount }⟩ ∧
        evs = evs1) := by
  unfold increase_balance at h
  by_cases h0 : amount = 0
  · rw [if_pos h0] at h
    simp only [Except.ok.injEq, Prod.mk.injEq] at h
    exact Or.inl ⟨h0, h.1.symm, h.2.symm⟩
  · rw [if_neg h0] at h
    refine Or.inr ⟨by omega, ?_⟩
    cases hci : depositIntoResult (can_increase env st beneficiary amount) with
    | error e =>
      rw [hci] at h
      exact absurd h (by simp)
    | ok u =>
      rw [hci] at h
      cases hda : st.asset with
      | none =>
        rw [hda] at h
        exact absurd h (by simp)
      | some d =>
        rw [hda] at h
        dsimp only at h
        cases hch : check d with
        | error e =>
          rw [hch] at h
          exact absurd h (by simp)
        | ok d2 =>
          rw [hch] at h
          dsimp only at h
          refine ⟨d, d2, rfl, depositIntoResult_ok hci, hch, ?_⟩
          by_cases hmin : satAdd env (getAcc st.accounts beneficiary).balance amount
              < d2.min_balance
          · rw [if_pos hmin] at h
            exact absurd h (by simp)
          · rw [if_neg hmin] at h
            rw [getBal_def] at hmin
            refine ⟨by omega, ?_⟩
            by_cases hbz : (getAcc st.accounts beneficiary).balance = 0
            · rw [if_pos hbz] at h
              cases hna : new_account env beneficiary d2 with
              | error e =>
                rw [hna] at h
                exact absurd h (by simp)
              | ok res =>
                obtain ⟨suff, d3, evs1⟩ := res
                rw [hna] at h
                simp only [Except.ok.injEq, Prod.mk.injEq] at h
                refine ⟨suff, d3, evs1,
                  Or.inl ⟨by rw [← getBal_def]; exact hbz, rfl⟩,
                  h.1.symm, h.2.symm⟩
            · rw [if_neg hbz] at h
              simp only [Except.ok.injEq, Prod.mk.injEq] at h
              exact ⟨(getAcc st.accounts beneficiary).sufficient, d2, [],
                Or.inr ⟨by rw [← getBal_def]; exact hbz, rfl, rfl, rfl⟩,
                h.1.symm, h.2.symm⟩

theorem decrease_balance_ok {env : Env} {st : State} {target amount : Nat}
    {ka : Bool} {rf : RespectFrozen} {be : Bool}
    {check : Nat → AssetDetails → Except DispatchError AssetDetails}
    {actual : Nat} {st2 : State} {evs : List Event}
    (h : decrease_balance env st target amount ka rf be check
          = .ok (actual, st2, evs)) :
    (amount = 0 ∧ actual = 0 ∧ st2 = st ∧ evs = []) ∨
    (0 < amount ∧ ∃ d melted d2,
      st.asset = some d ∧
      prep_debit env st target amount ka rf be = .ok (actual, melted) ∧
      check actual d = .ok d2 ∧
      ((getBal st.accounts target - actual < d2.min_balance ∧
        st2 = ⟨some (dead_account target d2
                      (getAcc st.accounts target).sufficient).1,
               alistRemove st.accounts target⟩ ∧
        evs = (dead_account target d2 (getAcc st.accounts target).sufficient).2
                ++ meltEvs target melted) ∨
       (d2.min_balance ≤ getBal st.accounts target - actual ∧
        st2 = ⟨some d2,
               alistSet st.accounts target
                 { getAcc st.accounts target with
                   balance := getBal st.accounts target - actual }⟩ ∧
        evs = meltEvs target melted))) := by
  unfold decrease_balance at h
  by_cases h0 : amount = 0
  · rw [if_pos h0] at h
    simp only [Except.ok.injEq, Prod.mk.injEq] at h
    exact Or.inl ⟨h0, by omega, h.2.1.symm, h.2.2.symm⟩
  · rw [if_neg h0] at h
    refine Or.inr ⟨by omega, ?_⟩
    cases hpd : prep_debit env st target amount ka rf be with
    | error e =>
      rw [hpd] at h
      exact absurd h (by simp)
    | ok pr =>
      obtain ⟨actual0, melted⟩ := pr
      rw [hpd] at h
      dsimp only at h
      cases hda : st.asset with
      | none =>
        rw [hda] at h
        exact absurd h (by simp)
      | some d =>
        rw [hda] at h
        dsimp only at h
        cases hch : check actual0 d with
        | error e =>
          rw [hch] at h
          exact absurd h (by simp)
        | ok d2 =>
          rw [hch] at h
          dsimp only at h
          by_cases hrm : (getAcc st.accounts target).balance - actual0
              < d2.min_balance
          · rw [if_pos hrm] at h
            simp only [Except.ok.injEq, Prod.mk.injEq] at h
            obtain ⟨ha, hst, hevs⟩ := h
            subst ha
            rw [getBal_def] at hrm
            refine ⟨d, melted, d2, rfl, rfl, hch, Or.inl ⟨hrm, hst.symm, ?_⟩⟩
            rw [← hevs]
            cases melted <;> rfl
          · rw [if_neg hrm] at h
            simp only [Except.ok.injEq, Prod.mk.injEq] at h
            obtain ⟨ha, hst, hevs⟩ := h
            subst ha
            rw [getBal_def] at hrm
            refine ⟨d, melted, d2, rfl, rfl, hch,
              Or.inr ⟨by omega, ?_, ?_⟩⟩
            · exact hst.symm
            · rw [← hevs]
              cases melted <;> rfl

theorem do_transfer_ok {env : Env} {st : State} {source dest amount : Nat}
    {ka : Bool} {rf : RespectFrozen} {be bd : Bool}
    {credit : Nat} {st2 : State} {evs : List Event}
    (h : do_transfer env st source dest amount none ka rf be bd
          = .ok (credit, st2, evs)) :
    (amount = 0 ∧ credit = 0 ∧ st2 = st ∧ evs = []) ∨
    (0 < amount ∧ ∃ d debit melted maybe_burn,
      st.asset = some d ∧
      prep_debit env st source amount ka rf be = .ok (debit, melted) ∧
      prep_credit env st dest amount debit bd = .ok (credit, maybe_burn) ∧
      ((source = dest ∧ st2 = st ∧ evs = meltEvs source melted) ∨
       (source ≠ dest ∧
        ∃ suff d2 evs1,
          ((getBal st.accounts dest = 0 ∧
            new_account env dest
              (match maybe_burn with
               | some burn => { d with supply := d.supply - burn }
               | none => d) = .ok (suff, d2, evs1)) ∨
           (getBal st.accounts dest ≠ 0 ∧
            suff = (getAcc st.accounts dest).sufficient ∧
            d2 = (match maybe_burn with
                  | some burn => { d with supply := d.supply - burn }
                  | none => d) ∧ evs1 = [])) ∧
          do_transfer_fin env st source dest debit melted credit suff d2 evs1
            = .ok (credit, st2, evs)))) := by
  unfold do_transfer at h
  by_cases h0 : amount = 0
  · rw [if_pos h0] at h
    simp only [Except.ok.injEq, Prod.mk.injEq] at h
    exact Or.inl ⟨h0, by omega, h.2.1.symm, h.2.2.symm⟩
  · rw [if_neg h0] at h
    refine Or.inr ⟨by omega, ?_⟩
    cases hpd : prep_debit env st source amount ka rf be with
    | error e =>
      rw [hpd] at h
      exact absurd h (by simp)
    | ok pr =>
      obtain ⟨debit, melted⟩ := pr
      rw [hpd] at h
      dsimp only at h
      cases hpc : prep_credit env st dest amount debit bd with
      | error e =>
        rw [hpc] at h
        exact absurd h (by simp)
      | ok pc =>
        obtain ⟨credit0, maybe_burn⟩ := pc
        rw [hpc] at h
        dsimp only at h
        cases hda : st.asset with
        | none =>
          rw [hda] at h
          exact absurd h (by simp)
        | some d =>
          rw [hda] at h
          dsimp only at h
          unfold do_transfer_go at h
          by_cases hsd : source = dest
          · rw [if_pos hsd] at h
            simp only [Except.ok.injEq, Prod.mk.injEq] at h
            obtain ⟨hc, hst, hevs⟩ := h
            subst hc
            exact ⟨d, debit, melted, maybe_burn, rfl, rfl, hpc,
              Or.inl ⟨hsd, hst.symm, hevs.symm⟩⟩
          · rw [if_neg hsd] at h
            cases maybe_burn with
            | none =>
              dsimp only at h
              by_cases hbz : (getAcc st.accounts dest).balance = 0
              · rw [if_pos hbz] at h
                cases hna : new_account env dest d with
                | error e =>
                  rw [hna] at h
                  exact absurd h (by simp)
                | ok res =>
                  obtain ⟨suff, d2, evs1⟩ := res
                  rw [hna] at h
                  dsimp only at h
                  have hcr : credit0 = credit := by
                    unfold do_transfer_fin at h
                    split at h <;>
                      simp only [Except.ok.injEq, Prod.mk.injEq] at h <;>
                      exact h.1
                  subst hcr
                  exact ⟨d, debit, melted, none, rfl, rfl, hpc,
                    Or.inr ⟨hsd, suff, d2, evs1,
                      Or.inl ⟨by rw [← getBal_def]; exact hbz, hna⟩, h⟩⟩
              · rw [if_neg hbz] at h
                have hcr : credit0 = credit := by
                  unfold do_transfer_fin at h
                  split at h <;>
                    simp only [Except.ok.injEq, Prod.mk.injEq] at h <;>
                    exact h.1
                subst hcr
                exact ⟨d, debit, melted, none, rfl, rfl, hpc,
                  Or.inr ⟨hsd, (getAcc st.accounts dest).sufficient, d, [],
                    Or.inr ⟨by rw [← getBal_def]; exact hbz, rfl, rfl, rfl⟩, h⟩⟩
            | some burn =>
              dsimp only at h
              by_cases hbz : (getAcc st.accounts dest).balance = 0
              · rw [if_pos hbz] at h
                cases hna : new_account env dest
                    { d with supply := d.supply - burn } with
                | error e =>
                  rw [hna] at h
                  exact absurd h (by simp)
                | ok res =>
                  obtain ⟨suff, d2, evs1⟩ := res
                  rw [hna] at h
                  dsimp only at h
                  have hcr : credit0 = credit := by
                    unfold do_transfer_fin at h
                    split at h <;>
                      simp only [Except.ok.injEq, Prod.mk.injEq] at h <;>
                      exact h.1
                  subst hcr
                  exact ⟨d, debit, melted, some burn, rfl, rfl, hpc,
                    Or.inr ⟨hsd, suff, d2, evs1,
                      Or.inl ⟨by rw [← getBal_def]; exact hbz, hna⟩, h⟩⟩
              · rw [if_neg hbz] at h
                have hcr : credit0 = credit := by
                  unfold do_transfer_fin at h
                  split at h <;>
                    simp only [Except.ok.injEq, Prod.mk.injEq] at h <;>
                    exact h.1
                subst hcr
                exact ⟨d, debit, melted, some burn, rfl, rfl, hpc,
                  Or.inr ⟨hsd, (getAcc st.accounts dest).sufficient,
                    { d with supply := d.supply - burn }, [],
                    Or.inr ⟨by rw [← getBal_def]; exact hbz, rfl, rfl, rfl⟩, h⟩⟩

theorem new_account_preserves {env : Env} {who : Nat} {d : AssetDetails}
    {suff : Bool} {d3 : AssetDetails} {evs : List Event}
    (h : new_account env who d = .ok (suff, d3, evs)) :
    d3.supply = d.supply ∧ d3.min_balance = d.min_balance := by
  unfold new_account at h
  split at h
  · exact absurd h (by simp)
  · split at h
    · simp only [Except.ok.injEq, Prod.mk.injEq] at h
      obtain ⟨_, hd3, _⟩ := h
      rw [← hd3]
      exact ⟨rfl, rfl⟩
    · split at h
      · exact absurd h (by simp)
      · simp only [Except.ok.injEq, Prod.mk.injEq] at h
        obtain ⟨_, hd3, _⟩ := h
        rw [← hd3]
        exact ⟨rfl, rfl⟩

theorem dead_account_preserves (who : Nat) (d : AssetDetails) (s : Bool) :
    (dead_account who d s).1.supply = d.supply ∧
    (dead_account who d s).1.min_balance = d.min_balance := by
  unfold dead_account
  split <;> exact ⟨rfl, rfl⟩

theorem do_mint_conserved {env : Env} {st : State} {b a : Nat}
    {st2 : State} {evs : List Event} {d : AssetDetails}
    (hd : st.asset = some d) (hc : d.supply = sumBal st.accounts)
    (h : do_mint env st b a none = .ok (st2, evs)) : Conserved st2 := by
  unfold do_mint at h
  rcases increase_balance_ok h with ⟨_, hst, _⟩ |
    ⟨hpos, d0, d2, hd0, hci, hch, hmin, suff, d3, evs1, hcr, hst2, hevs⟩
  · subst hst
    simpa [Conserved, hd] using hc
  · rw [hd] at hd0
    injection hd0 with hd0
    subst hd0
    dsimp only at hch
    simp only [Except.ok.injEq] at hch
    have hsup2 : d2.supply = satAdd env d.supply a := by
      rw [← hch]
    have hsup3 : d3.supply = d2.supply := by
      rcases hcr with ⟨hbz, hna⟩ | ⟨hbz, hseq, hd3, hevs1⟩
      · exact (new_account_preserves hna).1
      · rw [hd3]
    obtain ⟨hover, hbover, _⟩ := can_increase_success hd hci
    have hset := sumBal_set st.accounts b
      { getAcc st.accounts b with
        sufficient := suff,
        balance := satAdd env (getBal st.accounts b) a }
    dsimp only at hset
    rw [hst2]
    show d3.supply = sumBal (alistSet st.accounts b
      { getAcc st.accounts b with
        sufficient := suff,
        balance := satAdd env (getBal st.accounts b) a })
    rw [hsup3, hsup2]
    simp only [satAdd] at hset ⊢
    omega

theorem do_burn_conserved {env : Env} {st : State} {t a : Nat}
    {ka : Bool} {rf : RespectFrozen} {be : Bool}
    {r : Nat} {st2 : State} {evs : List Event} {d : AssetDetails}
    (hd : st.asset = some d) (hc : d.supply = sumBal st.accounts)
    (hsup : d.supply ≤ env.maxBal)
    (h : do_burn env st t a none ka rf be = .ok (r, st2, evs)) :
    Conserved st2 := by
  unfold do_burn at h
  rcases decrease_balance_ok h with ⟨_, _, hst, _⟩ |
    ⟨hpos, d0, melted, d2, hd0, hpd, hch, hcases⟩
  · subst hst
    simpa [Conserved, hd] using hc
  · rw [hd] at hd0
    injection hd0 with hd0
    subst hd0
    dsimp only at hch
    simp only [Except.ok.injEq] at hch
    have hsup2 : d2.supply = d.supply - r := by
      rw [← hch]
    have hmin2 : d2.min_balance = d.min_balance := by
      rw [← hch]
    have hble : getBal st.accounts t ≤ sumBal st.accounts := getBal_le_sumBal _ _
    have hbmax : getBal st.accounts t ≤ env.maxBal := by omega
    obtain ⟨hrle, hrfull⟩ := prep_debit_ok hd hbmax hpd
    rcases hcases with ⟨hlt, hst2, _⟩ | ⟨hge, hst2, _⟩
    · -- the target record is removed; prep guarantees the balance was
      -- debited in full
      have hfull : r = getBal st.accounts t := hrfull (by omega)
      have hrem := sumBal_remove st.accounts t
      obtain ⟨hds, _⟩ := dead_account_preserves t d2 (getAcc st.accounts t).sufficient
      rw [hst2]
      show (dead_account t d2 (getAcc st.accounts t).sufficient).1.supply
        = sumBal (alistRemove st.accounts t)
      omega
    · have hset := sumBal_set st.accounts t
        { getAcc st.accounts t with
          balance := getBal st.accounts t - r }
      dsimp only at hset
      rw [hst2]
      show d2.supply = sumBal (alistSet st.accounts t
        { getAcc st.accounts t with balance := getBal st.accounts t - r })
      dsimp only
      omega

theorem do_transfer_conserved {env : Env} {st : State} {s t a : Nat}
    {ka : Bool} {rf : RespectFrozen} {be bd : Bool}
    {r : Nat} {st2 : State} {evs : List Event} {d : AssetDetails}
    (hd : st.asset = some d) (hc : d.supply = sumBal st.accounts)
    (hsup : d.supply ≤ env.maxBal)
    (h : do_transfer env st s t a none ka rf be bd = .ok (r, st2, evs)) :
    Conserved st2 := by
  rcases do_transfer_ok h with ⟨_, _, hst, _⟩ |
    ⟨hpos, d0, debit, melted, maybe_burn, hd0, hpd, hpc, hcase⟩
  · subst hst
    simpa [Conserved, hd] using hc
  · rw [hd] at hd0
    injection hd0 with hd0
    subst hd0
    rcases hcase with ⟨hsd, hst2, _⟩ | ⟨hsd, suff, d2, evs1, hcr, hfin⟩
    · subst hst2
      simpa [Conserved, hd] using hc
    · -- source differs from destination: the full mutation block ran
      obtain ⟨hciS, hbd⟩ := prep_credit_ok hpc
      obtain ⟨hover, hbover, _⟩ := can_increase_success hd hciS
      have hble : getBal st.accounts s ≤ sumBal st.accounts := getBal_le_sumBal _ _
      have hbmax : getBal st.accounts s ≤ env.maxBal := by omega
      obtain ⟨hdle, hdfull⟩ := prep_debit_ok hd hbmax hpd
      -- unified facts about the burned dust and the post-creation details
      have hkey : ∃ burnv, r + burnv = debit ∧
          d2.supply = d.supply - burnv ∧ d2.min_balance = d.min_balance := by
        rcases hbd with ⟨hmb, hcd⟩ | ⟨burn, hmb, hcd, hsum⟩
        · subst hmb
          refine ⟨0, by omega, ?_⟩
          rcases hcr with ⟨hbz, hna⟩ | ⟨hbz, hseq, hd2, hevs1⟩
          · obtain ⟨h1, h2⟩ := new_account_preserves hna
            dsimp only at h1 h2
            exact ⟨by omega, h2⟩
          · rw [hd2]
            dsimp only
            exact ⟨by omega, rfl⟩
        · subst hmb
          refine ⟨burn, by omega, ?_⟩
          rcases hcr with ⟨hbz, hna⟩ | ⟨hbz, hseq, hd2, hevs1⟩
          · obtain ⟨h1, h2⟩ := new_account_preserves hna
            dsimp only at h1 h2
            exact ⟨by omega, h2⟩
          · rw [hd2]
            dsimp only
            exact ⟨by omega, rfl⟩
      obtain ⟨burnv, hkeyr, hd2sup, hd2min⟩ := hkey
      unfold do_transfer_fin at hfin
      simp only [getBal_def] at hfin
      have hsat : satAdd env (getBal st.accounts t) r = getBal st.accounts t + r :=
        satAdd_eq (by omega)
      rw [hsat] at hfin
      have hset1 := sumBal_set st.accounts t
        { getAcc st.accounts t with
          sufficient := suff,
          balance := getBal st.accounts t + r }
      dsimp only at hset1
      have hts : t ≠ s := fun hx => hsd hx.symm
      have hgs := getBal_set_ne st.accounts
        { getAcc st.accounts t with
          sufficient := suff,
          balance := getBal st.accounts t + r } hts
      by_cases hcond : getBal st.accounts s - debit < d2.min_balance
      · rw [if_pos hcond] at hfin
        simp only [Except.ok.injEq, Prod.mk.injEq] at hfin
        obtain ⟨_, hst2, _⟩ := hfin
        have hfull : debit = getBal st.accounts s := hdfull (by omega)
        have hrem := sumBal_remove
          (alistSet st.accounts t
            { getAcc st.accounts t with
              sufficient := suff,
              balance := getBal st.accounts t + r }) s
        obtain ⟨hds, _⟩ := dead_account_preserves s d2 (getAcc st.accounts s).sufficient
        rw [← hst2]
        show (dead_account s d2 (getAcc st.accounts s).sufficient).1.supply
          = sumBal (alistRemove (alistSet st.accounts t
              { getAcc st.accounts t with
                sufficient := suff,
                balance := getBal st.accounts t + r }) s)
        dsimp only at hrem hgs ⊢
        omega
      · rw [if_neg hcond] at hfin
        simp only [Except.ok.injEq, Prod.mk.injEq] at hfin
        obtain ⟨_, hst2, _⟩ := hfin
        have hset2 := sumBal_set
          (alistSet st.accounts t
            { getAcc st.accounts t with
              sufficient := suff,
              balance := getBal st.accounts t + r }) s
          { getAcc st.accounts s with
            balance := getBal st.accounts s - debit }
        rw [← hst2]
        show d2.supply = sumBal (alistSet (alistSet st.accounts t
            { getAcc st.accounts t with
              sufficient := suff,
              balance := getBal st.accounts t + r }) s
            { getAcc st.accounts s with
              balance := getBal st.accounts s - debit })
        dsimp only at hset2 hgs ⊢
        omega

theorem NoDust_elim {st : State} {d : AssetDetails}
    (hnd : NoDust st) (hd : st.asset = some d) :
    ∀ p ∈ st.accounts, p.2.balance = 0 ∨ d.min_balance ≤ p.2.balance := by
  unfold NoDust at hnd
  rw [hd] at hnd
  exact hnd

theorem do_mint_noDust {env : Env} {st : State} {b a : Nat}
    {st2 : State} {evs : List Event}
    (hnd : NoDust st) (h : do_mint env st b a none = .ok (st2, evs)) :
    NoDust st2 := by
  unfold do_mint at h
  rcases increase_balance_ok h with ⟨_, hst, _⟩ |
    ⟨hpos, d0, d2, hd0, hci, hch, hmin, suff, d3, evs1, hcr, hst2, hevs⟩
  · subst hst
    exact hnd
  · dsimp only at hch
    simp only [Except.ok.injEq] at hch
    have hmin2 : d2.min_balance = d0.min_balance := by
      rw [← hch]
    have hmin3 : d3.min_balance = d2.min_balance := by
      rcases hcr with ⟨_, hna⟩ | ⟨_, _, hd3, _⟩
      · exact (new_account_preserves hna).2
      · rw [hd3]
    have hprev := NoDust_elim hnd hd0
    rw [hst2]
    intro p hp
    rcases mem_alistSet _ _ _ _ hp with hpv | hpm
    · subst hpv
      dsimp only
      right
      omega
    · rcases hprev p hpm with hz | hge
      · exact Or.inl hz
      · right
        omega

theorem do_burn_noDust {env : Env} {st : State} {t a : Nat}
    {ka : Bool} {rf : RespectFrozen} {be : Bool}
    {r : Nat} {st2 : State} {evs : List Event}
    (hnd : NoDust st) (h : do_burn env st t a none ka rf be = .ok (r, st2, evs)) :
    NoDust st2 := by
  unfold do_burn at h
  rcases decrease_balance_ok h with ⟨_, _, hst, _⟩ |
    ⟨hpos, d0, melted, d2, hd0, hpd, hch, hcases⟩
  · subst hst
    exact hnd
  · dsimp only at hch
    simp only [Except.ok.injEq] at hch
    have hmin2 : d2.min_balance = d0.min_balance := by
      rw [← hch]
    have hprev := NoDust_elim hnd hd0
    rcases hcases with ⟨hlt, hst2, _⟩ | ⟨hge, hst2, _⟩
    · rw [hst2]
      intro p hp
      have hpm := mem_alistRemove _ _ _ hp
      obtain ⟨_, hdm⟩ := dead_account_preserves t d2 (getAcc st.accounts t).sufficient
      rcases hprev p hpm with hz | hge2
      · exact Or.inl hz
      · right
        omega
    · rw [hst2]
      intro p hp
      rcases mem_alistSet _ _ _ _ hp with hpv | hpm
      · subst hpv
        dsimp only
        right
        omega
      · rcases hprev p hpm with hz | hge2
        · exact Or.inl hz
        · right
          omega

theorem do_transfer_noDust {env : Env} {st : State} {s t a : Nat}
    {ka : Bool} {rf : RespectFrozen} {be bd : Bool}
    {r : Nat} {st2 : State} {evs : List Event}
    (hnd : NoDust st)
    (h : do_transfer env st s t a none ka rf be bd = .ok (r, st2, evs)) :
    NoDust st2 := by
  rcases do_transfer_ok h with ⟨_, _, hst, _⟩ |
    ⟨hpos, d, debit, melted, maybe_burn, hd0, hpd, hpc, hcase⟩
  · subst hst
    exact hnd
  · rcases hcase with ⟨hsd, hst2, _⟩ | ⟨hsd, suff, d2, evs1, hcr, hfin⟩
    · subst hst2
      exact hnd
    · obtain ⟨hciS, hbd⟩ := prep_credit_ok hpc
      obtain ⟨hover, hbover, hzmin, _⟩ := can_increase_success hd0 hciS
      have hprev := NoDust_elim hnd hd0
      -- the asset record after dust burn and account creation keeps the
      -- minimum balance
      have hd2min : d2.min_balance = d.min_balance := by
        rcases hbd with ⟨hmb, hcd⟩ | ⟨burn, hmb, hcd, hsum⟩ <;> subst hmb <;>
          rcases hcr with ⟨hbz, hna⟩ | ⟨hbz, hseq, hd2, hevs1⟩
        · have h2 := (new_account_preserves hna).2
          dsimp only at h2
          exact h2
        · rw [hd2]
        · have h2 := (new_account_preserves hna).2
          dsimp only at h2
          exact h2
        · rw [hd2]
      -- the credited destination balance is either zero or at least the
      -- minimum
      have hdest : satAdd env (getBal st.accounts t) r = 0 ∨
          d.min_balance ≤ satAdd env (getBal st.accounts t) r := by
        have hsa : satAdd env (getBal st.accounts t) r
            = getBal st.accounts t + r := satAdd_eq (by omega)
        rw [hsa]
        by_cases hbz : getBal st.accounts t = 0
        · have hmle := hzmin hbz
          right
          omega
        · cases hlk : alistLookup st.accounts t with
          | none =>
            exfalso
            apply hbz
            unfold getBal getAcc
            rw [hlk]
            rfl
          | some v =>
            have hv : getBal st.accounts t = v.balance := by
              unfold getBal getAcc
              rw [hlk]
              rfl
            rcases hprev (t, v) (alistLookup_mem hlk) with hz | hge
            · exfalso
              apply hbz
              have hz2 : v.balance = 0 := hz
              omega
            · have hge2 : d.min_balance ≤ v.balance := hge
              right
              omega
      unfold do_transfer_fin at hfin
      simp only [getBal_def] at hfin
      by_cases hcond : getBal st.accounts s - debit < d2.min_balance
      · rw [if_pos hcond] at hfin
        simp only [Except.ok.injEq, Prod.mk.injEq] at hfin
        obtain ⟨_, hst2, _⟩ := hfin
        rw [← hst2]
        intro p hp
        have hp2 := mem_alistRemove _ _ _ hp
        obtain ⟨_, hdm⟩ := dead_account_preserves s d2 (getAcc st.accounts s).sufficient
        rcases mem_alistSet _ _ _ _ hp2 with hpv | hpm
        · subst hpv
          dsimp only
          rcases hdest with hz | hge
          · exact Or.inl hz
          · right
            omega
        · rcases hprev p hpm with hz | hge
          · exact Or.inl hz
          · right
            omega
      · rw [if_neg hcond] at hfin
        simp only [Except.ok.injEq, Prod.mk.injEq] at hfin
        obtain ⟨_, hst2, _⟩ := hfin
        rw [← hst2]
        intro p hp
        rcases mem_alistSet _ _ _ _ hp with hpv | hpm
        · subst hpv
          dsimp only
          right
          omega
        · rcases mem_alistSet _ _ _ _ hpm with hpv2 | hpm2
          · subst hpv2
            dsimp only
            rcases hdest with hz | hge
            · exact Or.inl hz
            · right
              omega
          · rcases hprev p hpm2 with hz | hge
            · exact Or.inl hz
            · right
              omega

theorem do_burn_below_min_removes {env : Env} {st : State} {t a : Nat}
    {ka : Bool} {rf : RespectFrozen} {be : Bool}
    {r : Nat} {st2 : State} {evs : List Event} {d : AssetDetails}
    (hd : st.asset = some d)
    (hbmax : getBal st.accounts t ≤ env.maxBal)
    (hnodup : nodupKeys st.accounts = true)
    (hpos : 0 < a)
    (h : do_burn env st t a none ka rf be = .ok (r, st2, evs))
    (hlow : getBal st.accounts t - r < d.min_balance) :
    alistLookup st2.accounts t = none ∧ r = getBal st.accounts t := by
  unfold do_burn at h
  rcases decrease_balance_ok h with ⟨h0, _⟩ |
    ⟨_, d0, melted, d2, hd0, hpd, hch, hcases⟩
  · omega
  · rw [hd] at hd0
    injection hd0 with hd0
    subst hd0
    obtain ⟨hrle, hrfull⟩ := prep_debit_ok hd hbmax hpd
    have hfull : r = getBal st.accounts t := hrfull hlow
    dsimp only at hch
    simp only [Except.ok.injEq] at hch
    have hmin2 : d2.min_balance = d.min_balance := by
      rw [← hch]
    rcases hcases with ⟨hlt, hst2, _⟩ | ⟨hge, hst2, _⟩
    · rw [hst2]
      exact ⟨alistLookup_remove_self st.accounts t hnodup, hfull⟩
    · omega

theorem can_increase_below_min {env : Env} {st : State} {who amount : Nat}
    {d : AssetDetails}
    (hd : st.asset = some d)
    (hz : getBal st.accounts who = 0)
    (hlt : amount < d.min_balance) :
    can_increase env st who amount ≠ .success := by
  intro h
  obtain ⟨_, _, hmin, _⟩ := can_increase_success hd h
  have := hmin hz
  omega

theorem applyOp_noDust {env : Env} {st : State} {op : Op}
    {r : Nat} {st2 : State} {evs : List Event}
    (hnd : NoDust st) (h : applyOp env st op = .ok (r, st2, evs)) :
    NoDust st2 := by
  cases op with
  | mint b a =>
    unfold applyOp at h
    dsimp only at h
    cases hm : do_mint env st b a none with
    | error e =>
      rw [hm] at h
      exact absurd h (by simp)
    | ok pr =>
      obtain ⟨st2m, evsm⟩ := pr
      rw [hm] at h
      simp only [Except.ok.injEq, Prod.mk.injEq] at h
      obtain ⟨_, hst2, _⟩ := h
      rw [← hst2]
      exact do_mint_noDust hnd hm
  | burn t a ka rf be => exact do_burn_noDust hnd h
  | transfer s t a ka rf be bd => exact do_transfer_noDust hnd h

/-- C1: Supply conservation — for the modelled asset, starting from any
state in which the total supply equals the sum of the balances of all
persisted account records (and the supply fits the balance type), every
successful mint, burn or transfer operation re-establishes that the total
supply equals the sum of the balances of all persisted account records. -/
theorem c1_supply_conservation (env : Env) (st : State) (op : Op)
    (r : Nat) (st2 : State) (evs : List Event) (d : AssetDetails)
    (hd : st.asset = some d)
    (hc : d.supply = sumBal st.accounts)
    (hsup : d.supply ≤ env.maxBal)
    (h : applyOp env st op = .ok (r, st2, evs)) :
    Conserved st2 := by
  cases op with
  | mint b a =>
    unfold applyOp at h
    dsimp only at h
    cases hm : do_mint env st b a none with
    | error e =>
      rw [hm] at h
      exact absurd h (by simp)
    | ok pr =>
      obtain ⟨st2m, evsm⟩ := pr
      rw [hm] at h
      simp only [Except.ok.injEq, Prod.mk.injEq] at h
      obtain ⟨_, hst2, _⟩ := h
      rw [← hst2]
      exact do_mint_conserved hd hc hm
  | burn t a ka rf be => exact do_burn_conserved hd hc hsup h
  | transfer s t a ka rf be bd => exact do_transfer_conserved hd hc hsup h

/-- Witness for C1 at a concrete input: minting 20 units of an asset with
supply 50 and one holder re-establishes supply-equals-sum. -/
theorem c1_supply_conservation_witness :
    Conserved ⟨some ⟨0, 0, 70, 10, true, 2, 2, false⟩,
      [(1, ⟨50, false, false⟩), (2, ⟨20, false, true⟩)]⟩ :=
  c1_supply_conservation ⟨1000000, fun _ => none, fun _ => 1⟩
    ⟨some ⟨0, 0, 50, 10, true, 1, 1, false⟩, [(1, ⟨50, false, false⟩)]⟩
    (.mint 2 20) 20
    ⟨some ⟨0, 0, 70, 10, true, 2, 2, false⟩,
      [(1, ⟨50, false, false⟩), (2, ⟨20, false, true⟩)]⟩
    [.incSufficient 2]
    ⟨0, 0, 50, 10, true, 1, 1, false⟩
    rfl (by decide) (by decide) rfl

/-- C2: No sub-minimum dust — (1) every successful mint, burn or transfer
operation preserves the invariant that no persisted account record has a
balance strictly between zero and the asset minimum (a failed operation
leaves the state unchanged by the all-or-nothing commit, so the invariant
holds after failed operations as well); (2) a burn whose actual debit would
leave the balance below the minimum removes the record, and the debit
equals the full previous balance (the residual is exactly zero); (3) a
credit to a holder with zero balance of an amount below the minimum is
rejected (never `Success`). -/
theorem c2_no_dust :
    (∀ (env : Env) (st : State) (op : Op) (r : Nat) (st2 : State)
       (evs : List Event), NoDust st →
       applyOp env st op = .ok (r, st2, evs) → NoDust st2) ∧
    (∀ (env : Env) (st : State) (t a : Nat) (ka : Bool) (rf : RespectFrozen)
       (be : Bool) (r : Nat) (st2 : State) (evs : List Event)
       (d : AssetDetails), st.asset = some d →
       getBal st.accounts t ≤ env.maxBal → nodupKeys st.accounts = true →
       0 < a → do_burn env st t a none ka rf be = .ok (r, st2, evs) →
       getBal st.accounts t - r < d.min_balance →
       alistLookup st2.accounts t = none ∧ r = getBal st.accounts t) ∧
    (∀ (env : Env) (st : State) (who amount : Nat) (d : AssetDetails),
       st.asset = some d → getBal st.accounts who = 0 →
       amount < d.min_balance →
       can_increase env st who amount ≠ .success) :=
  ⟨fun _ _ _ _ _ _ hnd h => applyOp_noDust hnd h,
   fun _ _ _ _ _ _ _ _ _ _ _ hd hbmax hnodup hpos h hlow =>
     do_burn_below_min_removes hd hbmax hnodup hpos h hlow,
   fun _ _ _ _ _ hd hz hlt => can_increase_below_min hd hz hlt⟩

/-- Witness for C2 at concrete inputs: the no-dust invariant after a
concrete transfer that sweeps the source's dust, the removal of the swept
source record, and the rejection of a sub-minimum credit to an empty
account. -/
theorem c2_no_dust_witness :
    NoDust ⟨some ⟨0, 0, 50, 10, true, 1, 2, false⟩,
      [(2, ⟨50, false, true⟩)]⟩ ∧
    (alistLookup
      (⟨some ⟨0, 0, 38, 10, true, 0, 1, false⟩,
        ([] : AccountMap)⟩ : State).accounts 1 = none ∧
     12 = getBal [(1, ⟨12, false, false⟩)] 1) ∧
    can_increase ⟨1000000, fun _ => none, fun _ => 1⟩
      ⟨some ⟨0, 0, 50, 10, true, 1, 1, false⟩, [(1, ⟨50, false, false⟩)]⟩
      2 7 ≠ .success := by
  refine ⟨?_, ?_, ?_⟩
  · exact c2_no_dust.1 ⟨1000000, fun _ => none, fun _ => 1⟩
      ⟨some ⟨0, 0, 50, 10, true, 1, 1, false⟩, [(1, ⟨50, false, false⟩)]⟩
      (.transfer 1 2 50 false .respect false false) 50
      ⟨some ⟨0, 0, 50, 10, true, 1, 2, false⟩, [(2, ⟨50, false, true⟩)]⟩
      [.incSufficient 2, .decConsumer 1, .died 1]
      (by decide) rfl
  · exact c2_no_dust.2.1 ⟨1000000, fun _ => none, fun _ => 1⟩
      ⟨some ⟨0, 0, 50, 10, true, 1, 1, false⟩, [(1, ⟨12, false, false⟩)]⟩
      1 12 false .respect false 12
      ⟨some ⟨0, 0, 38, 10, true, 0, 1, false⟩, []⟩
      [.decConsumer 1, .died 1]
      ⟨0, 0, 50, 10, true, 1, 1, false⟩
      rfl (by decide) (by decide) (by decide) rfl (by decide)
  · exact c2_no_dust.2.2 ⟨1000000, fun _ => none, fun _ => 1⟩
      ⟨some ⟨0, 0, 50, 10, true, 1, 1, false⟩, [(1, ⟨50, false, false⟩)]⟩
      2 7 ⟨0, 0, 50, 10, true, 1, 1, false⟩
      rfl (by decide) (by decide)

theorem new_account_succeeds {env : Env} {dest : Nat} {d : AssetDetails}
    (hacc : d.accounts < u32Max)
    (hpr : d.is_sufficient = false → env.providers dest ≠ 0) :
    ∃ suff d3 evs1, new_account env dest d = .ok (suff, d3, evs1) ∧
      d3.min_balance = d.min_balance ∧ d3.supply = d.supply := by
  unfold new_account
  rw [if_neg (by omega)]
  by_cases hs : d.is_sufficient = true
  · rw [if_pos hs]
    exact ⟨true, _, _, rfl, rfl, rfl⟩
  · rw [if_neg hs]
    rw [if_neg (hpr (by simpa using hs))]
    exact ⟨false, _, _, rfl, rfl, rfl⟩

/-- C3 (amended): Keep-alive rejection surfaces as `BalanceLow` — for an
asset with `minimum_balance = 10` and a source holding balance 12 with no
external frozen amount and no freeze flags set, a transfer of amount 5 with
`keep_alive = true` and `best_effort = false` fails with the `BalanceLow`
error (the debit is capped at `decreasable_balance = 12 − 10 = 2 < 5` before
`can_decrease` could report `WouldDie`) and leaves the state unchanged. -/
theorem c3_keep_alive_balance_low (env : Env) (st : State) (source dest : Nat)
    (d : AssetDetails) (rf : RespectFrozen) (bd : Bool)
    (hd : st.asset = some d)
    (hmin : d.min_balance = 10)
    (hbal : getBal st.accounts source = 12)
    (hsf : (getAcc st.accounts source).is_frozen = false)
    (haf : d.is_frozen = false)
    (hfb : env.frozen_balance source = none) :
    do_transfer env st source dest 5 none true rf false bd
      = .error .balanceLow ∧
    applyOpD env st (.transfer source dest 5 true rf false bd) = st := by
  have hdb : decreasable_balance env st source true rf
      = .ok (min (getBal st.accounts source - d.min_balance) d.supply) := by
    unfold decreasable_balance
    rw [hd]
    dsimp only
    rw [if_neg (by simp [haf]), if_neg (by simp [hsf])]
    cases rf <;> rw [hfb] <;> rfl
  have hpd : prep_debit env st source 5 true rf false = .error .balanceLow := by
    unfold prep_debit
    rw [hdb]
    dsimp only
    rw [if_pos ?hc]
    case hc =>
      have hx : ¬ (5 ≤ min (min (getBal st.accounts source - d.min_balance)
          d.supply) 5) := by
        omega
      simp [hx]
      omega
  have h1 : do_transfer env st source dest 5 none true rf false bd
      = .error .balanceLow := by
    unfold do_transfer
    rw [if_neg (by omega), hpd]
  refine ⟨h1, ?_⟩
  unfold applyOpD applyOp
  dsimp only
  rw [h1]

/-- Counterexample to C3 as stated: at the claim's own setup the transfer
fails with `BalanceLow`, not `WouldDie`. -/
theorem c3_keep_alive_counterexample :
    do_transfer ⟨1000000, fun _ => none, fun _ => 1⟩
      ⟨some ⟨0, 0, 12, 10, false, 1, 0, false⟩, [(1, ⟨12, false, false⟩)]⟩
      1 2 5 none true .respect false false = .error .balanceLow ∧
    do_transfer ⟨1000000, fun _ => none, fun _ => 1⟩
      ⟨some ⟨0, 0, 12, 10, false, 1, 0, false⟩, [(1, ⟨12, false, false⟩)]⟩
      1 2 5 none true .respect false false ≠ .error .wouldDie := by
  decide

/-- Witness for the amended C3 at a concrete input. -/
theorem c3_keep_alive_balance_low_witness :
    do_transfer ⟨1000000, fun _ => none, fun _ => 1⟩
      ⟨some ⟨0, 0, 12, 10, false, 1, 0, false⟩, [(1, ⟨12, false, false⟩)]⟩
      1 2 5 none true .ignore false true = .error .balanceLow ∧
    applyOpD ⟨1000000, fun _ => none, fun _ => 1⟩
      ⟨some ⟨0, 0, 12, 10, false, 1, 0, false⟩, [(1, ⟨12, false, false⟩)]⟩
      (.transfer 1 2 5 true .ignore false true)
      = ⟨some ⟨0, 0, 12, 10, false, 1, 0, false⟩, [(1, ⟨12, false, false⟩)]⟩ :=
  c3_keep_alive_balance_low ⟨1000000, fun _ => none, fun _ => 1⟩
    ⟨some ⟨0, 0, 12, 10, false, 1, 0, false⟩, [(1, ⟨12, false, false⟩)]⟩
    1 2 ⟨0, 0, 12, 10, false, 1, 0, false⟩ .ignore true
    rfl rfl (by decide) rfl rfl rfl

/-- C4: Dust sweep — for an asset with `minimum_balance = 10` and a source
holding balance 12 with no external frozen amount and no freeze flags set,
and a destination able to receive 12, a transfer of amount 5 with
`keep_alive = false`, `best_effort = false` and `burn_dust = false`
succeeds, debits the full 12 from the source (sweeping the residual 7),
deletes the source account record, credits 12 to the destination and
returns 12 as the actually-credited amount. -/
theorem c4_dust_sweep (env : Env) (st : State) (source dest : Nat)
    (d : AssetDetails) (suff : Bool) (rf : RespectFrozen)
    (hd : st.asset = some d)
    (hmin : d.min_balance = 10)
    (hlk : alistLookup st.accounts source = some ⟨12, false, suff⟩)
    (hsup12 : 12 ≤ d.supply)
    (haf : d.is_frozen = false)
    (hfb : env.frozen_balance source = none)
    (hsd : source ≠ dest)
    (hci : can_increase env st dest 12 = .success)
    (hacc : d.accounts < u32Max)
    (hnodup : nodupKeys st.accounts = true) :
    ∃ st2 evs, do_transfer env st source dest 5 none false rf false false
        = .ok (12, st2, evs) ∧
      alistLookup st2.accounts source = none ∧
      getBal st2.accounts dest = getBal st.accounts dest + 12 := by
  have hga : getAcc st.accounts source = ⟨12, false, suff⟩ := by
    unfold getAcc
    rw [hlk]
    rfl
  obtain ⟨hsover, hbover, _, hprov⟩ := can_increase_success hd hci
  have hdb : decreasable_balance env st source false rf = .ok 12 := by
    unfold decreasable_balance
    rw [hd]
    dsimp only
    rw [if_neg (by simp [haf]), if_neg (by simp [hga])]
    cases rf <;> rw [hfb] <;> dsimp only <;> rw [hga] <;>
      dsimp only <;> rw [min_eq_left hsup12]
  have hcd : can_decrease env st source 5 false rf = (.reducedToZero 7, none) := by
    unfold can_decrease
    rw [hd]
    dsimp only
    have h1 : ((checked_sub d.supply 5).isNone = true) = False := by
      simp only [checked_sub_isNone, eq_iff_iff, iff_false]
      omega
    rw [if_neg (by rw [h1]; exact id), if_neg (by simp [haf]),
      if_neg (by simp [hga]), hga]
    dsimp only
    rw [show checked_sub 12 5 = some 7 from rfl]
    dsimp only
    rw [hfb]
    dsimp only
    rw [if_pos (by omega)]
    rfl
  have hpd : prep_debit env st source 5 false rf false = .ok (12, none) := by
    unfold prep_debit
    rw [hdb]
    dsimp only
    rw [if_neg (by simp)]
    rw [show min (12:Nat) 5 = 5 from rfl, hcd]
    dsimp only [withdrawIntoResult]
    rw [satAdd_eq (by omega)]
  have hpc : prep_credit env st dest 5 12 false = .ok (12, none) := by
    unfold prep_credit
    dsimp only
    rw [hci]
    rfl
  unfold do_transfer
  rw [if_neg (by omega), hpd]
  dsimp only
  rw [hpc]
  dsimp only
  rw [hd]
  dsimp only
  unfold do_transfer_go
  rw [if_neg hsd]
  by_cases hbz : (getAcc st.accounts dest).balance = 0
  · rw [if_pos hbz]
    dsimp only
    obtain ⟨suff2, d3, evs1, hna, hmin3, _⟩ :=
      new_account_succeeds hacc
        (hprov (by rw [← getBal_def]; exact hbz))
    rw [hna]
    dsimp only
    unfold do_transfer_fin
    rw [if_pos (by rw [hga]; dsimp only; omega)]
    refine ⟨_, _, rfl, ?_, ?_⟩
    · exact alistLookup_remove_self _ _ (nodupKeys_set _ _ _ hnodup)
    · unfold getBal getAcc
      rw [alistLookup_remove_ne _ hsd, alistLookup_set_self]
      simp only [Option.getD_some]
      unfold getBal getAcc at hbover
      exact satAdd_eq (by omega)
  · rw [if_neg hbz]
    dsimp only
    unfold do_transfer_fin
    rw [if_pos (by rw [hga]; dsimp only; omega)]
    refine ⟨_, _, rfl, ?_, ?_⟩
    · exact alistLookup_remove_self _ _ (nodupKeys_set _ _ _ hnodup)
    · unfold getBal getAcc
      rw [alistLookup_remove_ne _ hsd, alistLookup_set_self]
      simp only [Option.getD_some]
      unfold getBal getAcc at hbover
      exact satAdd_eq (by omega)

/-- Witness for C4 at a concrete input. -/
theorem c4_dust_sweep_witness :
    ∃ st2 evs, do_transfer ⟨1000000, fun _ => none, fun _ => 1⟩
      ⟨some ⟨0, 0, 30, 10, false, 2, 0, false⟩,
        [(1, ⟨12, false, false⟩), (3, ⟨18, false, false⟩)]⟩
      1 2 5 none false .respect false false = .ok (12, st2, evs) ∧
      alistLookup st2.accounts 1 = none ∧
      getBal st2.accounts 2 = getBal
        [(1, (⟨12, false, false⟩ : AssetBalance)),
         (3, ⟨18, false, false⟩)] 2 + 12 :=
  c4_dust_sweep ⟨1000000, fun _ => none, fun _ => 1⟩
    ⟨some ⟨0, 0, 30, 10, false, 2, 0, false⟩,
      [(1, ⟨12, false, false⟩), (3, ⟨18, false, false⟩)]⟩
    1 2 ⟨0, 0, 30, 10, false, 2, 0, false⟩ false .respect
    rfl rfl rfl (by decide) rfl rfl (by decide) (by decide) (by decide)
    (by decide)

theorem can_decrease_reduce {env : Env} {st : State} {who amt : Nat}
    {ka : Bool} {rf : RespectFrozen} {d : AssetDetails}
    (hd : st.asset = some d)
    (hdf : d.is_frozen = false)
    (haf : (getAcc st.accounts who).is_frozen = false)
    (hsup : amt ≤ d.supply)
    (hble : amt ≤ getBal st.accounts who) :
    can_decrease env st who amt ka rf =
      (match env.frozen_balance who with
       | some frozen =>
         match checked_add env frozen d.min_balance with
         | none => ((.overflow : WithdrawConsequence), (none : Option Nat))
         | some required_balance =>
           if getBal st.accounts who - amt < required_balance then
             match rf with
             | .respect => (.frozen, none)
             | .ignore =>
               if getBal st.accounts who - amt < d.min_balance then
                 if ka then (.wouldDie, none)
                 else (.reducedToZero (getBal st.accounts who - amt),
                       some (getBal st.accounts who - amt - d.min_balance))
               else (.success,
                     some (getBal st.accounts who - amt - d.min_balance))
           else
             if getBal st.accounts who - amt < d.min_balance then
               if ka then (.wouldDie, none)
               else (.reducedToZero (getBal st.accounts who - amt), none)
             else (.success, none)
       | none =>
         if getBal st.accounts who - amt < d.min_balance then
           if ka then (.wouldDie, none)
           else (.reducedToZero (getBal st.accounts who - amt), none)
         else (.success, none)) := by
  unfold can_decrease
  rw [hd]
  dsimp only
  have h1 : ((checked_sub d.supply amt).isNone = true) = False := by
    simp only [checked_sub_isNone, eq_iff_iff, iff_false]
    omega
  rw [if_neg (by rw [h1]; exact id), if_neg (by simp [hdf]),
    if_neg (by simp [haf])]
  have h2 : checked_sub (getAcc st.accounts who).balance amt
      = some (getBal st.accounts who - amt) := by
    rw [checked_sub_eq_some]
    rw [getBal_def]
    omega
  rw [h2]

theorem can_decrease_hook_none {env : Env} {st : State} {who amt : Nat}
    {ka : Bool} {rf : RespectFrozen} {d : AssetDetails}
    (hd : st.asset = some d)
    (hdf : d.is_frozen = false)
    (haf : (getAcc st.accounts who).is_frozen = false)
    (hsup : amt ≤ d.supply)
    (hble : amt ≤ getBal st.accounts who)
    (hfb : env.frozen_balance who = none) :
    can_decrease env st who amt ka rf =
      (if getBal st.accounts who - amt < d.min_balance then
         if ka then ((.wouldDie : WithdrawConsequence), (none : Option Nat))
         else (.reducedToZero (getBal st.accounts who - amt), none)
       else (.success, none)) := by
  rw [can_decrease_reduce hd hdf haf hsup hble, hfb]

theorem can_decrease_hook_some {env : Env} {st : State} {who amt : Nat}
    {ka : Bool} {rf : RespectFrozen} {d : AssetDetails} {f : Nat}
    (hd : st.asset = some d)
    (hdf : d.is_frozen = false)
    (haf : (getAcc st.accounts who).is_frozen = false)
    (hsup : amt ≤ d.supply)
    (hble : amt ≤ getBal st.accounts who)
    (hfb : env.frozen_balance who = some f)
    (hbound : f + d.min_balance ≤ env.maxBal) :
    can_decrease env st who amt ka rf =
      (if getBal st.accounts who - amt < f + d.min_balance then
         match rf with
         | .respect => ((.frozen : WithdrawConsequence), (none : Option Nat))
         | .ignore =>
           if getBal st.accounts who - amt < d.min_balance then
             if ka then (.wouldDie, none)
             else (.reducedToZero (getBal st.accounts who - amt),
                   some (getBal st.accounts who - amt - d.min_balance))
           else (.success, some (getBal st.accounts who - amt - d.min_balance))
       else
         if getBal st.accounts who - amt < d.min_balance then
           if ka then (.wouldDie, none)
           else (.reducedToZero (getBal st.accounts who - amt), none)
         else (.success, none)) := by
  rw [can_decrease_reduce hd hdf haf hsup hble]
  simp only [hfb]
  have hca : checked_add env f d.min_balance = some (f + d.min_balance) := by
    unfold checked_add
    rw [if_pos hbound]
  rw [hca]

theorem can_decrease_hook_some_overflow {env : Env} {st : State}
    {who amt : Nat} {ka : Bool} {rf : RespectFrozen} {d : AssetDetails}
    {f : Nat}
    (hd : st.asset = some d)
    (hdf : d.is_frozen = false)
    (haf : (getAcc st.accounts who).is_frozen = false)
    (hsup : amt ≤ d.supply)
    (hble : amt ≤ getBal st.accounts who)
    (hfb : env.frozen_balance who = some f)
    (hof : env.maxBal < f + d.min_balance) :
    can_decrease env st who amt ka rf = (.overflow, none) := by
  rw [can_decrease_reduce hd hdf haf hsup hble]
  simp only [hfb]
  have hca : checked_add env f d.min_balance = none := by
    unfold checked_add
    rw [if_neg (by omega)]
  rw [hca]

theorem can_decrease_underflow {env : Env} {st : State} {who amt : Nat}
    {ka : Bool} {rf : RespectFrozen} {d : AssetDetails}
    (hd : st.asset = some d)
    (hsu : d.supply < amt) :
    can_decrease env st who amt ka rf = (.underflow, none) := by
  unfold can_decrease
  rw [hd]
  dsimp only
  rw [if_pos (by rw [checked_sub_isNone]; omega)]

theorem can_decrease_noFunds {env : Env} {st : State} {who amt : Nat}
    {ka : Bool} {rf : RespectFrozen} {d : AssetDetails}
    (hd : st.asset = some d)
    (hdf : d.is_frozen = false)
    (haf : (getAcc st.accounts who).is_frozen = false)
    (hsu : amt ≤ d.supply)
    (hb : getBal st.accounts who < amt) :
    can_decrease env st who amt ka rf = (.noFunds, none) := by
  unfold can_decrease
  rw [hd]
  dsimp only
  have h1 : ((checked_sub d.supply amt).isNone = true) = False := by
    simp only [checked_sub_isNone, eq_iff_iff, iff_false]
    omega
  rw [if_neg (by rw [h1]; exact id), if_neg (by simp [hdf]),
    if_neg (by simp [haf])]
  have h2 : checked_sub (getAcc st.accounts who).balance amt = none := by
    rw [checked_sub_eq_none, getBal_def]
    omega
  rw [h2]

/-- C7 (amended): decreasable_balance is the maximum accepted withdrawal,
provided the returned cap `c` is positive and any hook-reported frozen
amount does not overflow when added to the minimum balance — `can_decrease`
at amount `c` yields Success or ReducedToZero, and at every amount strictly
greater than `c` it yields neither. -/
theorem c7_decreasable_max (env : Env) (st : State) (who : Nat) (ka : Bool)
    (rf : RespectFrozen) (c : Nat) (d : AssetDetails)
    (hd : st.asset = some d)
    (hdb : decreasable_balance env st who ka rf = .ok c)
    (hcpos : 0 < c)
    (hguard : ∀ f, env.frozen_balance who = some f →
      f + d.min_balance ≤ env.maxBal) :
    proceeds (can_decrease env st who c ka rf).1 = true ∧
    (∀ amt, c < amt → proceeds (can_decrease env st who amt ka rf).1 = false) := by
  obtain ⟨d0, hd0, hdf, haf, hcsup, hcble, harms⟩ := decreasable_balance_ok hdb
  rw [hd] at hd0
  injection hd0 with hd0
  subst hd0
  constructor
  · -- at the cap the withdrawal proceeds
    rcases harms with ⟨f, hrf, hfb, hbound, hc⟩ |
        ⟨hka, hdisj, hc⟩ | ⟨hka, hdisj, hc⟩
    · -- Respect with a frozen amount
      subst hrf
      rw [can_decrease_hook_some hd hdf haf hcsup hcble hfb hbound]
      rw [if_neg (by omega), if_neg (by omega)]
      rfl
    · -- keep-alive, freeze not respected or absent
      subst hka
      cases hfb : env.frozen_balance who with
      | none =>
        rw [can_decrease_hook_none hd hdf haf hcsup hcble hfb]
        rw [if_neg (by omega)]
        rfl
      | some f =>
        have hrf : rf = .ignore := by
          rcases hdisj with h | h
          · exact h
          · rw [hfb] at h
            exact absurd h (by simp)
        subst hrf
        rw [can_decrease_hook_some hd hdf haf hcsup hcble hfb (hguard f hfb)]
        by_cases hrq : getBal st.accounts who - c < f + d.min_balance
        · rw [if_pos hrq]
          dsimp only
          rw [if_neg (by omega)]
          rfl
        · rw [if_neg hrq, if_neg (by omega)]
          rfl
    · -- not keep-alive, freeze not respected or absent
      subst hka
      cases hfb : env.frozen_balance who with
      | none =>
        rw [can_decrease_hook_none hd hdf haf hcsup hcble hfb]
        by_cases hrm : getBal st.accounts who - c < d.min_balance
        · rw [if_pos hrm]
          rfl
        · rw [if_neg hrm]
          rfl
      | some f =>
        have hrf : rf = .ignore := by
          rcases hdisj with h | h
          · exact h
          · rw [hfb] at h
            exact absurd h (by simp)
        subst hrf
        rw [can_decrease_hook_some hd hdf haf hcsup hcble hfb (hguard f hfb)]
        by_cases hrq : getBal st.accounts who - c < f + d.min_balance
        · rw [if_pos hrq]
          dsimp only
          by_cases hrm : getBal st.accounts who - c < d.min_balance
          · rw [if_pos hrm]
            rfl
          · rw [if_neg hrm]
            rfl
        · rw [if_neg hrq]
          by_cases hrm : getBal st.accounts who - c < d.min_balance
          · rw [if_pos hrm]
            rfl
          · rw [if_neg hrm]
            rfl
  · -- beyond the cap the withdrawal never proceeds
    intro amt hamt
    by_cases hsu : amt ≤ d.supply
    · by_cases hb : amt ≤ getBal st.accounts who
      · rcases harms with ⟨f, hrf, hfb, hbound, hc⟩ |
            ⟨hka, hdisj, hc⟩ | ⟨hka, hdisj, hc⟩
        · subst hrf
          rw [can_decrease_hook_some hd hdf haf hsu hb hfb hbound]
          rw [if_pos (by omega)]
          rfl
        · subst hka
          cases hfb : env.frozen_balance who with
          | none =>
            rw [can_decrease_hook_none hd hdf haf hsu hb hfb]
            rw [if_pos (by omega), if_pos rfl]
            rfl
          | some f =>
            have hrf : rf = .ignore := by
              rcases hdisj with h | h
              · exact h
              · rw [hfb] at h
                exact absurd h (by simp)
            subst hrf
            by_cases hof : f + d.min_balance ≤ env.maxBal
            · rw [can_decrease_hook_some hd hdf haf hsu hb hfb hof]
              by_cases hrq : getBal st.accounts who - amt < f + d.min_balance
              · rw [if_pos hrq]
                dsimp only
                rw [if_pos (by omega), if_pos rfl]
                rfl
              · exfalso
                omega
            · rw [can_decrease_hook_some_overflow hd hdf haf hsu hb hfb
                (by omega)]
              rfl
        · exfalso
          omega
      · rw [can_decrease_noFunds hd hdf haf hsu (by omega)]
        rfl
    · rw [can_decrease_underflow hd (by omega)]
      rfl

/-- Counterexample to C7 as stated: with `minimum_balance = 10` and a
holder with no record, `decreasable_balance` with `keep_alive = true`
returns 0, yet `can_decrease` at amount 0 yields `WouldDie`, which is
neither Success nor ReducedToZero. -/
theorem c7_decreasable_max_counterexample :
    decreasable_balance ⟨1000000, fun _ => none, fun _ => 1⟩
      ⟨some ⟨0, 0, 100, 10, false, 0, 0, false⟩, []⟩ 1 true .respect
      = .ok 0 ∧
    can_decrease ⟨1000000, fun _ => none, fun _ => 1⟩
      ⟨some ⟨0, 0, 100, 10, false, 0, 0, false⟩, []⟩ 1 0 true .respect
      = (.wouldDie, none) ∧
    proceeds ((can_decrease ⟨1000000, fun _ => none, fun _ => 1⟩
      ⟨some ⟨0, 0, 100, 10, false, 0, 0, false⟩, []⟩ 1 0 true .respect).1)
      = false := by
  decide

/-- Witness for the amended C7 at a concrete input. -/
theorem c7_decreasable_max_witness :
    proceeds (can_decrease ⟨1000000, fun _ => none, fun _ => 1⟩
      ⟨some ⟨0, 0, 100, 10, false, 1, 0, false⟩, [(1, ⟨30, false, false⟩)]⟩
      1 30 false .respect).1 = true ∧
    proceeds (can_decrease ⟨1000000, fun _ => none, fun _ => 1⟩
      ⟨some ⟨0, 0, 100, 10, false, 1, 0, false⟩, [(1, ⟨30, false, false⟩)]⟩
      1 31 false .respect).1 = false := by
  have h := c7_decreasable_max ⟨1000000, fun _ => none, fun _ => 1⟩
    ⟨some ⟨0, 0, 100, 10, false, 1, 0, false⟩, [(1, ⟨30, false, false⟩)]⟩
    1 false .respect 30 ⟨0, 0, 100, 10, false, 1, 0, false⟩
    rfl (by decide) (by decide) (by intro f hf; simp at hf)
  exact ⟨h.1, h.2 31 (by decide)⟩

theorem can_decrease_at_cap_bounded {env : Env} {st : State} {who : Nat}
    {ka : Bool} {rf : RespectFrozen} {c : Nat} {d : AssetDetails}
    (hd : st.asset = some d)
    (hdb : decreasable_balance env st who ka rf = .ok c)
    (hcpos : 0 < c)
    (hguard : ∀ f, env.frozen_balance who = some f →
      f + d.min_balance ≤ env.maxBal)
    (hbsup : getBal st.accounts who ≤ d.supply) :
    ∃ melt,
      (can_decrease env st who c ka rf = (.success, melt) ∧
       d.min_balance ≤ getBal st.accounts who - c) ∨
      (can_decrease env st who c ka rf = (.reducedToZero 0, melt) ∧
       getBal st.accounts who = c ∧
       getBal st.accounts who - c < d.min_balance) := by
  obtain ⟨d0, hd0, hdf, haf, hcsup, hcble, harms⟩ := decreasable_balance_ok hdb
  rw [hd] at hd0
  injection hd0 with hd0
  subst hd0
  rcases harms with ⟨f, hrf, hfb, hbound, hc⟩ |
      ⟨hka, hdisj, hc⟩ | ⟨hka, hdisj, hc⟩
  · -- Respect with a frozen amount: plain success
    subst hrf
    refine ⟨none, Or.inl ⟨?_, by omega⟩⟩
    rw [can_decrease_hook_some hd hdf haf hcsup hcble hfb hbound]
    rw [if_neg (by omega), if_neg (by omega)]
  · -- keep-alive: the cap leaves exactly the minimum behind
    subst hka
    cases hfb : env.frozen_balance who with
    | none =>
      refine ⟨none, Or.inl ⟨?_, by omega⟩⟩
      rw [can_decrease_hook_none hd hdf haf hcsup hcble hfb]
      rw [if_neg (by omega)]
    | some f =>
      have hrf : rf = .ignore := by
        rcases hdisj with h | h
        · exact h
        · rw [hfb] at h
          exact absurd h (by simp)
      subst hrf
      by_cases hrq : getBal st.accounts who - c < f + d.min_balance
      · refine ⟨some (getBal st.accounts who - c - d.min_balance),
          Or.inl ⟨?_, by omega⟩⟩
        rw [can_decrease_hook_some hd hdf haf hcsup hcble hfb (hguard f hfb)]
        rw [if_pos hrq]
        dsimp only
        rw [if_neg (by omega)]
      · refine ⟨none, Or.inl ⟨?_, by omega⟩⟩
        rw [can_decrease_hook_some hd hdf haf hcsup hcble hfb (hguard f hfb)]
        rw [if_neg hrq, if_neg (by omega)]
  · -- not keep-alive: the cap is the full balance
    subst hka
    have hcb : c = getBal st.accounts who := by omega
    cases hfb : env.frozen_balance who with
    | none =>
      by_cases hrm : getBal st.accounts who - c < d.min_balance
      · refine ⟨none, Or.inr ⟨?_, by omega, hrm⟩⟩
        rw [can_decrease_hook_none hd hdf haf hcsup hcble hfb]
        rw [if_pos hrm]
        rw [if_neg (by simp), show getBal st.accounts who - c = 0 by omega]
      · refine ⟨none, Or.inl ⟨?_, by omega⟩⟩
        rw [can_decrease_hook_none hd hdf haf hcsup hcble hfb]
        rw [if_neg hrm]
    | some f =>
      have hrf : rf = .ignore := by
        rcases hdisj with h | h
        · exact h
        · rw [hfb] at h
          exact absurd h (by simp)
      subst hrf
      by_cases hrq : getBal st.accounts who - c < f + d.min_balance
      · by_cases hrm : getBal st.accounts who - c < d.min_balance
        · refine ⟨some (getBal st.accounts who - c - d.min_balance),
            Or.inr ⟨?_, by omega, hrm⟩⟩
          rw [can_decrease_hook_some hd hdf haf hcsup hcble hfb (hguard f hfb)]
          rw [if_pos hrq]
          dsimp only
          rw [if_pos hrm, if_neg (by simp),
            show getBal st.accounts who - c = 0 by omega]
        · refine ⟨some (getBal st.accounts who - c - d.min_balance),
            Or.inl ⟨?_, by omega⟩⟩
          rw [can_decrease_hook_some hd hdf haf hcsup hcble hfb (hguard f hfb)]
          rw [if_pos hrq]
          dsimp only
          rw [if_neg hrm]
      · by_cases hrm : getBal st.accounts who - c < d.min_balance
        · refine ⟨none, Or.inr ⟨?_, by omega, hrm⟩⟩
          rw [can_decrease_hook_some hd hdf haf hcsup hcble hfb (hguard f hfb)]
          rw [if_neg hrq, if_pos hrm, if_neg (by simp),
            show getBal st.accounts who - c = 0 by omega]
        · refine ⟨none, Or.inl ⟨?_, by omega⟩⟩
          rw [can_decrease_hook_some hd hdf haf hcsup hcble hfb (hguard f hfb)]
          rw [if_neg hrq, if_neg hrm]

/-- C5 (amended): Best-effort burn cap — for every asset, target and amount
strictly greater than the decreasable balance `c`, provided `c` is
positive, the target's balance does not exceed the supply (as supply
conservation guarantees), the supply fits the balance type and a
hook-reported frozen amount does not overflow when added to the minimum
balance, a burn with `best_effort = true` succeeds, reduces the target's
balance and the supply by exactly `c`, and returns `c` as the actual amount
burned. -/
theorem c5_best_effort_burn (env : Env) (st : State) (target amount : Nat)
    (ka : Bool) (rf : RespectFrozen) (c : Nat) (d : AssetDetails)
    (hd : st.asset = some d)
    (hdb : decreasable_balance env st target ka rf = .ok c)
    (hcpos : 0 < c)
    (hguard : ∀ f, env.frozen_balance target = some f →
      f + d.min_balance ≤ env.maxBal)
    (hbsup : getBal st.accounts target ≤ d.supply)
    (hsmax : d.supply ≤ env.maxBal)
    (hamt : c < amount)
    (hnodup : nodupKeys st.accounts = true) :
    ∃ st2 evs, do_burn env st target amount none ka rf true
        = .ok (c, st2, evs) ∧
      (∃ d2, st2.asset = some d2 ∧ d2.supply = d.supply - c) ∧
      getBal st2.accounts target = getBal st.accounts target - c := by
  obtain ⟨d0, hd0, _, _, hcsup, hcble, _⟩ := decreasable_balance_ok hdb
  rw [hd] at hd0
  injection hd0 with hd0
  subst hd0
  obtain ⟨melt, hcap⟩ := can_decrease_at_cap_bounded hd hdb hcpos hguard hbsup
  have hminc : min c amount = c := min_eq_left (by omega)
  have hpd : prep_debit env st target amount ka rf true = .ok (c, melt) := by
    unfold prep_debit
    rw [hdb]
    dsimp only
    rw [if_neg (by simp)]
    rw [hminc]
    rcases hcap with ⟨hcd, hge⟩ | ⟨hcd, hbc, hrm⟩ <;>
      rw [hcd] <;>
      dsimp only [withdrawIntoResult] <;>
      rw [satAdd_eq (by omega), Nat.add_zero]
  unfold do_burn decrease_balance
  rw [if_neg (by omega), hpd]
  dsimp only
  rw [hd]
  dsimp only
  rcases hcap with ⟨hcd, hge⟩ | ⟨hcd, hbc, hrm⟩
  · -- plain success: the record survives with the debited balance
    have hcond : ¬ ((getAcc st.accounts target).balance - c
        < ({ d with supply := d.supply - c } : AssetDetails).min_balance) := by
      dsimp only
      rw [getBal_def]
      omega
    rw [if_neg hcond]
    refine ⟨_, _, rfl, ⟨{ d with supply := d.supply - c }, rfl, rfl⟩, ?_⟩
    rw [getBal_set_self]
    rfl
  · -- reduced to zero: the record is removed
    have hcond : (getAcc st.accounts target).balance - c
        < ({ d with supply := d.supply - c } : AssetDetails).min_balance := by
      dsimp only
      rw [getBal_def]
      omega
    rw [if_pos hcond]
    refine ⟨_, _, rfl, ?_, ?_⟩
    · refine ⟨_, rfl, ?_⟩
      obtain ⟨hds, _⟩ := dead_account_preserves target
        { d with supply := d.supply - c } (getAcc st.accounts target).sufficient
      rw [hds]
    · unfold getBal getAcc
      rw [alistLookup_remove_self _ _ hnodup]
      show defaultAB.balance = getBal st.accounts target - c
      rw [show defaultAB.balance = 0 from rfl]
      omega

/-- Counterexample to C5 as stated: with `minimum_balance = 10` and a
target with no record, `decreasable_balance` with `keep_alive = true`
returns 0, and a best-effort burn of amount 1 fails with `WouldDie` instead
of burning 0 without error. -/
theorem c5_best_effort_burn_counterexample :
    decreasable_balance ⟨1000000, fun _ => none, fun _ => 1⟩
      ⟨some ⟨0, 0, 100, 10, false, 1, 0, false⟩, [(2, ⟨100, false, false⟩)]⟩
      7 true .respect = .ok 0 ∧
    do_burn ⟨1000000, fun _ => none, fun _ => 1⟩
      ⟨some ⟨0, 0, 100, 10, false, 1, 0, false⟩, [(2, ⟨100, false, false⟩)]⟩
      7 1 none true .respect true = .error .wouldDie := by
  decide

/-- Witness for the amended C5 at a concrete input. -/
theorem c5_best_effort_burn_witness :
    ∃ st2 evs, do_burn ⟨1000000, fun _ => none, fun _ => 1⟩
      ⟨some ⟨0, 0, 100, 10, false, 2, 0, false⟩,
        [(1, ⟨30, false, false⟩), (2, ⟨70, false, false⟩)]⟩
      1 31 none false .respect true = .ok (30, st2, evs) ∧
      (∃ d2, st2.asset = some d2 ∧ d2.supply = 100 - 30) ∧
      getBal st2.accounts 1 = getBal
        [(1, (⟨30, false, false⟩ : AssetBalance)),
         (2, ⟨70, false, false⟩)] 1 - 30 :=
  c5_best_effort_burn ⟨1000000, fun _ => none, fun _ => 1⟩
    ⟨some ⟨0, 0, 100, 10, false, 2, 0, false⟩,
      [(1, ⟨30, false, false⟩), (2, ⟨70, false, false⟩)]⟩
    1 31 false .respect 30 ⟨0, 0, 100, 10, false, 2, 0, false⟩
    rfl (by decide) (by decide) (by intro f hf; simp at hf)
    (by decide) (by decide) (by decide) (by decide)

/-- C8 (amended): Melt computation — when the freeze flags are clear, the
supply and balance checks pass, the hook reports a frozen amount `f` (with
`f + minimum_balance` not overflowing), `respect_frozen` is Ignore and
`rest = balance − amount < f + minimum_balance`, then provided the
withdrawal proceeds (`keep_alive` is false or `rest ≥ minimum_balance`),
the consequence is not `Frozen` and the melt amount reported for the hook
is `rest − minimum_balance` truncated at zero; when `keep_alive` is set and
`rest < minimum_balance` the consequence is `WouldDie` and no melt is
reported. -/
theorem c8_melt_computation (env : Env) (st : State) (who amount : Nat)
    (ka : Bool) (d : AssetDetails) (f : Nat)
    (hd : st.asset = some d)
    (hdf : d.is_frozen = false)
    (haf : (getAcc st.accounts who).is_frozen = false)
    (hsup : amount ≤ d.supply)
    (hble : amount ≤ getBal st.accounts who)
    (hfb : env.frozen_balance who = some f)
    (hbound : f + d.min_balance ≤ env.maxBal)
    (hrq : getBal st.accounts who - amount < f + d.min_balance)
    (hka : ka = false ∨ d.min_balance ≤ getBal st.accounts who - amount) :
    (can_decrease env st who amount ka .ignore).1 ≠ .frozen ∧
    (can_decrease env st who amount ka .ignore).2
      = some (getBal st.accounts who - amount - d.min_balance) := by
  rw [can_decrease_hook_some hd hdf haf hsup hble hfb hbound]
  rw [if_pos hrq]
  dsimp only
  by_cases hrm : getBal st.accounts who - amount < d.min_balance
  · rw [if_pos hrm]
    rcases hka with hka | hge
    · subst hka
      rw [if_neg (by simp)]
      exact ⟨by simp, rfl⟩
    · omega
  · rw [if_neg hrm]
    exact ⟨by simp, rfl⟩

/-- Counterexample to C8 as stated: under the claim's hypotheses with
`keep_alive = true` and `rest = 7 < minimum_balance = 10`, the withdrawal
is refused with `WouldDie` and no melt amount is reported at all, instead
of `max(0, rest − minimum_balance) = 0`. -/
theorem c8_melt_computation_counterexample :
    can_decrease ⟨1000000, fun _ => some 5, fun _ => 1⟩
      ⟨some ⟨0, 0, 100, 10, false, 1, 0, false⟩, [(1, ⟨12, false, false⟩)]⟩
      1 5 true .ignore = (.wouldDie, none) := by
  decide

/-- Witness for the amended C8 at a concrete input. -/
theorem c8_melt_computation_witness :
    (can_decrease ⟨1000000, fun _ => some 25, fun _ => 1⟩
      ⟨some ⟨0, 0, 100, 10, false, 1, 0, false⟩, [(1, ⟨30, false, false⟩)]⟩
      1 5 false .ignore).1 ≠ .frozen ∧
    (can_decrease ⟨1000000, fun _ => some 25, fun _ => 1⟩
      ⟨some ⟨0, 0, 100, 10, false, 1, 0, false⟩, [(1, ⟨30, false, false⟩)]⟩
      1 5 false .ignore).2 = some (getBal [(1, (⟨30, false, false⟩ : AssetBalance))] 1 - 5 - 10) :=
  c8_melt_computation ⟨1000000, fun _ => some 25, fun _ => 1⟩
    ⟨some ⟨0, 0, 100, 10, false, 1, 0, false⟩, [(1, ⟨30, false, false⟩)]⟩
    1 5 false ⟨0, 0, 100, 10, false, 1, 0, false⟩ 25
    rfl rfl rfl (by decide) (by decide) rfl (by decide) (by decide)
    (Or.inl rfl)

/-- C10: Melt only accompanies a proceeding withdrawal — whenever
`can_decrease` returns a melt argument, its consequence is Success or
ReducedToZero; every failing consequence carries no melt argument. -/
theorem c10_melt_only_when_proceeds (env : Env) (st : State)
    (who amount : Nat) (ka : Bool) (rf : RespectFrozen) (m : Nat)
    (h : (can_decrease env st who amount ka rf).2 = some m) :
    proceeds (can_decrease env st who amount ka rf).1 = true := by
  rcases hcd : can_decrease env st who amount ka rf with ⟨conseq, melt⟩
  rw [hcd] at h
  have h2 : melt = some m := h
  show proceeds conseq = true
  unfold can_decrease at hcd
  repeat' split at hcd
  all_goals
    simp only [Prod.mk.injEq] at hcd
  all_goals
    rw [← hcd.1]
  all_goals
    first
      | rfl
      | (rw [← hcd.2] at h2
         exact absurd h2 (by simp))

/-- Witness for C10 at a concrete input where a melt argument is present. -/
theorem c10_melt_only_when_proceeds_witness :
    proceeds (can_decrease ⟨1000000, fun _ => some 25, fun _ => 1⟩
      ⟨some ⟨0, 0, 100, 10, false, 1, 0, false⟩, [(1, ⟨30, false, false⟩)]⟩
      1 5 false .ignore).1 = true :=
  c10_melt_only_when_proceeds ⟨1000000, fun _ => some 25, fun _ => 1⟩
    ⟨some ⟨0, 0, 100, 10, false, 1, 0, false⟩, [(1, ⟨30, false, false⟩)]⟩
    1 5 false .ignore 15 (by decide)

/-- C9: Spend error handling and atomicity — `transfer_approved` fails with
`Unapproved` when no approval record exists for (owner, delegate) or when
the requested amount exceeds the approved total, and when the inner
transfer fails its error is propagated with the approval record and ledger
state left unchanged. -/
theorem c9_spend_errors :
    (∀ (env : Env) (st : State) (apprs : ApprovalMap)
       (owner delegate destination amount : Nat),
       apprLookup apprs (owner, delegate) = none →
       transfer_approved env st apprs owner delegate destination amount
         = .error .unapproved) ∧
    (∀ (env : Env) (st : State) (apprs : ApprovalMap)
       (owner delegate destination amount : Nat) (a : Approval),
       apprLookup apprs (owner, delegate) = some a →
       a.amount < amount →
       transfer_approved env st apprs owner delegate destination amount
         = .error .unapproved) ∧
    (∀ (env : Env) (st : State) (apprs : ApprovalMap)
       (owner delegate destination amount : Nat) (a : Approval)
       (e : DispatchError),
       apprLookup apprs (owner, delegate) = some a →
       amount ≤ a.amount →
       do_transfer env st owner destination amount none false .respect
         false false = .error e →
       transfer_approved env st apprs owner delegate destination amount
         = .error e ∧
       run_transfer_approved env st apprs owner delegate destination amount
         = (st, apprs)) := by
  refine ⟨?_, ?_, ?_⟩
  · intro env st apprs owner delegate destination amount hlk
    unfold transfer_approved
    rw [hlk]
  · intro env st apprs owner delegate destination amount a hlk hlt
    unfold transfer_approved
    rw [hlk]
    dsimp only
    rw [show checked_sub a.amount amount = none by
      rw [checked_sub_eq_none]; omega]
  · intro env st apprs owner delegate destination amount a e hlk hle hdt
    have h1 : transfer_approved env st apprs owner delegate destination amount
        = .error e := by
      unfold transfer_approved
      rw [hlk]
      dsimp only
      rw [show checked_sub a.amount amount = some (a.amount - amount) by
        rw [checked_sub_eq_some]; omega]
      dsimp only
      rw [hdt]
    refine ⟨h1, ?_⟩
    unfold run_transfer_approved
    rw [h1]

/-- Witness for C9 at concrete inputs. -/
theorem c9_spend_errors_witness :
    transfer_approved ⟨1000000, fun _ => none, fun _ => 1⟩
      ⟨some ⟨0, 0, 50, 10, false, 1, 0, false⟩, [(1, ⟨50, false, false⟩)]⟩
      [] 1 2 3 5 = .error .unapproved ∧
    transfer_approved ⟨1000000, fun _ => none, fun _ => 1⟩
      ⟨some ⟨0, 0, 50, 10, false, 1, 0, false⟩, [(1, ⟨50, false, false⟩)]⟩
      [((1, 2), ⟨4, 0⟩)] 1 2 3 5 = .error .unapproved ∧
    (transfer_approved ⟨1000000, fun _ => none, fun _ => 1⟩
      ⟨some ⟨0, 0, 50, 10, true, 1, 1, false⟩, [(1, ⟨50, false, false⟩)]⟩
      [((1, 2), ⟨9, 0⟩)] 1 2 3 5 = .error .belowMinimum ∧
     run_transfer_approved ⟨1000000, fun _ => none, fun _ => 1⟩
      ⟨some ⟨0, 0, 50, 10, true, 1, 1, false⟩, [(1, ⟨50, false, false⟩)]⟩
      [((1, 2), ⟨9, 0⟩)] 1 2 3 5
      = (⟨some ⟨0, 0, 50, 10, true, 1, 1, false⟩, [(1, ⟨50, false, false⟩)]⟩,
         [((1, 2), ⟨9, 0⟩)])) :=
  ⟨c9_spend_errors.1 ⟨1000000, fun _ => none, fun _ => 1⟩
      ⟨some ⟨0, 0, 50, 10, false, 1, 0, false⟩, [(1, ⟨50, false, false⟩)]⟩
      [] 1 2 3 5 rfl,
   c9_spend_errors.2.1 ⟨1000000, fun _ => none, fun _ => 1⟩
      ⟨some ⟨0, 0, 50, 10, false, 1, 0, false⟩, [(1, ⟨50, false, false⟩)]⟩
      [((1, 2), ⟨4, 0⟩)] 1 2 3 5 ⟨4, 0⟩ rfl (by decide),
   c9_spend_errors.2.2 ⟨1000000, fun _ => none, fun _ => 1⟩
      ⟨some ⟨0, 0, 50, 10, true, 1, 1, false⟩, [(1, ⟨50, false, false⟩)]⟩
      [((1, 2), ⟨9, 0⟩)] 1 2 3 5 ⟨9, 0⟩ .belowMinimum rfl (by decide)
      (by decide)⟩

/-- C6 (the code evaluated at the failing input): a best-effort burn of
amount 1 targeting holder 7, who never had an account record, succeeds with
actual amount 0 yet fires `dec_consumers` and `Freezer::died` for holder 7
and decrements the asset's `accounts` counter from 1 to 0, although no
record was created or destroyed. -/
theorem c6_refcount_dec_without_create :
    do_burn ⟨1000000, fun _ => none, fun _ => 1⟩
      ⟨some ⟨0, 0, 50, 10, false, 1, 0, false⟩, [(1, ⟨50, false, false⟩)]⟩
      7 1 none false .respect true
      = .ok (0,
             ⟨some ⟨0, 0, 50, 10, false, 0, 0, false⟩,
              [(1, ⟨50, false, false⟩)]⟩,
             [.decConsumer 7, .died 7]) := by
  decide

end Assets
